import Mathlib

/-!
# Linear Diophantine equation solver: embedding and verification

A shallow embedding of `main.cpp` (Euclidean logger `createLog`, recursive `gcd`,
back-substitution `solveDiophantine`, and the input gate of `main`).

Conventions of the embedding:

* C++ `int` values are mathematical integers (`Int`); `/` and `%` are the truncating
  operations `Int.tdiv` and `Int.tmod`, as C++ defines them. The functions whose name
  ends in `32` compute every product and sum of `solveDiophantine` in 32-bit `int`, a
  signed overflow being undefined behaviour.
* Undefined behaviour (division or modulo by zero, a vector access out of bounds) is
  the result `none`; a run that is defined returns `some`.
* Printing is not modelled, except for the states `1 = a(b) - c(d)` of the derivation
  and the numbers of the final answer line.
-/

namespace Diophantine

/-! ## Data model -/

/-- One record of the Euclidean algorithm, `struct GCDLog`, read `a = b(c) + d`:
dividend `a`, quotient `b`, divisor `c`, remainder `d`. -/
structure GCDLog where
  a : Int
  b : Int
  c : Int
  d : Int
deriving DecidableEq

/-- Constructor function `make_gcdLog` of the source. -/
def make_gcdLog (a b c d : Int) : GCDLog :=
  { a := a, b := b, c := c, d := d }

/-- The local variables `a, b, c, d` of `solveDiophantine`, read `1 = a(b) - c(d)`. -/
structure Coeffs where
  a : Int
  b : Int
  c : Int
  d : Int
deriving DecidableEq

/-- The numbers of the last printed answer line, `p(q) - r(s) = t`. -/
structure Equation where
  p : Int
  q : Int
  r : Int
  s : Int
  t : Int
deriving DecidableEq

/-- What a run of `main` ends with. -/
inductive Outcome where
  | invalidInput : Outcome
  | noSolution : Outcome
  | answer : Coeffs → Equation → Outcome
deriving DecidableEq

/-! ## Operations -/

/-- The recursive `gcd` of the source: `if (a % b == 0) return b; return gcd(b, a % b);`.
A modulo by zero is `none`. The recursion is well founded on `|b|`. -/
def gcd (a b : Int) : Option Int :=
  if hb : b = 0 then none
  else if a.tmod b = 0 then some b
  else gcd b (a.tmod b)
termination_by b.natAbs
decreasing_by
  have key : ∀ x y : Int, (x.tmod y).natAbs = x.natAbs % y.natAbs := by
    intro x y
    cases x <;> cases y <;> simp [Int.tmod, Int.natAbs_neg] <;> rfl
  rw [key]
  exact Nat.mod_lt _ (Int.natAbs_pos.mpr hb)

/-- The Euclidean logger `createLog`: push `(a, a / b, b, a % b)`, stop when the remainder
is `0` or `1`, otherwise recurse on `(b, a % b)`. The vector passed by reference is
threaded through as an argument and returned. A division by zero is `none`. -/
def createLog (gcdLog : List GCDLog) (a b : Int) : Option (List GCDLog) :=
  if hb : b = 0 then none
  else if a.tmod b = 0 ∨ a.tmod b = 1 then
    some (gcdLog ++ [make_gcdLog a (a.tdiv b) b (a.tmod b)])
  else
    createLog (gcdLog ++ [make_gcdLog a (a.tdiv b) b (a.tmod b)]) b (a.tmod b)
termination_by b.natAbs
decreasing_by
  have key : ∀ x y : Int, (x.tmod y).natAbs = x.natAbs % y.natAbs := by
    intro x y
    cases x <;> cases y <;> simp [Int.tmod, Int.natAbs_neg] <;> rfl
  rw [key]
  exact Nat.mod_lt _ (Int.natAbs_pos.mpr hb)

/-- The body of the `for` loop of `solveDiophantine` (source lines 74 to 98): the left
substitution when `prev.d == b`, the right substitution otherwise. -/
def substitute (s : Coeffs) (prev : GCDLog) : Coeffs :=
  if prev.d = s.b then
    { a := s.a, b := prev.a, c := s.c + s.a * prev.b, d := s.d }
  else
    { a := s.a + s.c * prev.b, b := s.b, c := s.c, d := prev.a }

/-- The loop `for (int i = size - 2; i >= 0; i--)` of `solveDiophantine`; the counter of
this function is `i + 1`, so `0` means the loop has ended. An access `gcdLog[i]` out of
bounds is `none`. -/
def solveLoop (gcdLog : List GCDLog) : Nat → Coeffs → Option Coeffs
  | 0, s => some s
  | i + 1, s =>
    match gcdLog[i]? with
    | none => none
    | some prev => solveLoop gcdLog i (substitute s prev)

/-- Source lines 63 to 99 of `solveDiophantine`: the state `(a, b, c, d)` is initialised
from the last record `gcdLog[size - 1]` and the loop runs from `size - 2` down to `0`.
On the empty vector the access `gcdLog[size - 1]` is out of bounds: `none`. -/
def solveState (gcdLog : List GCDLog) : Option Coeffs :=
  if gcdLog.length = 0 then none
  else
    match gcdLog[gcdLog.length - 1]? with
    | none => none
    | some last =>
      solveLoop gcdLog (gcdLog.length - 1) { a := 1, b := last.a, c := last.b, d := last.c }

/-- The numbers of the last answer line printed by `solveDiophantine` (source lines 107
to 114): `b(a * n) - d(c * n) = n` when `n != 1`, and `a(b) - c(d) = 1` otherwise. -/
def printAnswer (s : Coeffs) (n : Int) : Equation :=
  if n ≠ 1 then { p := s.b, q := s.a * n, r := s.d, s := s.c * n, t := n }
  else { p := s.a, q := s.b, r := s.c, s := s.d, t := 1 }

/-- The function `solveDiophantine`: the final values of its locals and the numbers of
the answer line it prints. -/
def solveDiophantine (gcdLog : List GCDLog) (n : Int) : Option (Coeffs × Equation) :=
  match solveState gcdLog with
  | none => none
  | some s => some (s, printAnswer s n)

/-- The feasibility test of `main` (source line 159, negated):
`gcd(a, b) == gcd(gcd(a, b), n)`. -/
def feasible (a b n : Int) : Option Bool :=
  match gcd a b with
  | none => none
  | some g =>
    match gcd g n with
    | none => none
    | some g2 => some (decide (g = g2))

/-- The function `main` on three integers already read from the input: the three range
checks, the feasibility test, then `createLog` on the empty vector and
`solveDiophantine`. -/
def main (a b n : Int) : Option Outcome :=
  if a ≤ 0 ∨ a ≥ 1000 then some Outcome.invalidInput
  else if b ≤ 0 ∨ b ≥ a then some Outcome.invalidInput
  else if n ≤ 0 ∨ n ≥ 1000 then some Outcome.invalidInput
  else
    match feasible a b n with
    | none => none
    | some false => some Outcome.noSolution
    | some true =>
      match createLog [] a b with
      | none => none
      | some gcdLog =>
        match solveDiophantine gcdLog n with
        | none => none
        | some r => some (Outcome.answer r.1 r.2)

/-- The printed line `p(q) - r(s) = t` read as an equation between integers. -/
def Equation.holds (e : Equation) : Prop :=
  e.p * e.q - e.r * e.s = e.t

instance (e : Equation) : Decidable e.holds := by
  unfold Equation.holds; infer_instance

/-- The states `(a, b, c, d)` the loop of `solveDiophantine` prints as `1 = a(b) - c(d)`:
one at the start of each iteration (source line 77) and one after the loop (source
line 102). The counter is `i + 1` as in `solveLoop`. -/
def solveSteps (gcdLog : List GCDLog) : Nat → Coeffs → Option (List Coeffs)
  | 0, s => some [s]
  | i + 1, s =>
    match gcdLog[i]? with
    | none => none
    | some prev =>
      match solveSteps gcdLog i (substitute s prev) with
      | none => none
      | some l => some (s :: l)

/-- All the states `solveDiophantine` prints, from the initialisation to the final one. -/
def solveStates (gcdLog : List GCDLog) : Option (List Coeffs) :=
  if gcdLog.length = 0 then none
  else
    match gcdLog[gcdLog.length - 1]? with
    | none => none
    | some last =>
      solveSteps gcdLog (gcdLog.length - 1) { a := 1, b := last.a, c := last.b, d := last.c }

/-- A result of 32-bit `int` arithmetic: a value outside `[-2^31, 2^31 - 1]` is a signed
overflow, which is undefined behaviour. -/
def int32 (x : Int) : Option Int :=
  if -2147483648 ≤ x ∧ x ≤ 2147483647 then some x else none

/-- The body of the loop of `solveDiophantine` with every product and sum computed in
32-bit `int`. -/
def substitute32 (s : Coeffs) (prev : GCDLog) : Option Coeffs :=
  if prev.d = s.b then
    match int32 (s.a * prev.b) with
    | none => none
    | some m =>
      match int32 (s.c + m) with
      | none => none
      | some c1 => some { a := s.a, b := prev.a, c := c1, d := s.d }
  else
    match int32 (s.c * prev.b) with
    | none => none
    | some m =>
      match int32 (s.a + m) with
      | none => none
      | some a1 => some { a := a1, b := s.b, c := s.c, d := prev.a }

/-- The loop of `solveDiophantine` over 32-bit `int`. -/
def solveLoop32 (gcdLog : List GCDLog) : Nat → Coeffs → Option Coeffs
  | 0, s => some s
  | i + 1, s =>
    match gcdLog[i]? with
    | none => none
    | some prev =>
      match substitute32 s prev with
      | none => none
      | some s1 => solveLoop32 gcdLog i s1

/-- Source lines 63 to 99 of `solveDiophantine` over 32-bit `int`. -/
def solveState32 (gcdLog : List GCDLog) : Option Coeffs :=
  if gcdLog.length = 0 then none
  else
    match gcdLog[gcdLog.length - 1]? with
    | none => none
    | some last =>
      solveLoop32 gcdLog (gcdLog.length - 1) { a := 1, b := last.a, c := last.b, d := last.c }

/-- The answer line over 32-bit `int`: the products `a * n` and `c * n` of source line 110
are computed when `n != 1`. -/
def printAnswer32 (s : Coeffs) (n : Int) : Option Equation :=
  if n ≠ 1 then
    match int32 (s.a * n) with
    | none => none
    | some an =>
      match int32 (s.c * n) with
      | none => none
      | some cn => some { p := s.b, q := an, r := s.d, s := cn, t := n }
  else some { p := s.a, q := s.b, r := s.c, s := s.d, t := 1 }

/-- The function `solveDiophantine` over 32-bit `int`. -/
def solveDiophantine32 (gcdLog : List GCDLog) (n : Int) : Option (Coeffs × Equation) :=
  match solveState32 gcdLog with
  | none => none
  | some s =>
    match printAnswer32 s n with
    | none => none
    | some e => some (s, e)

/-- A valid Euclidean chain: each record's divisor is the next record's dividend and its
remainder is the next record's divisor. -/
def IsChain (t : List GCDLog) : Prop :=
  ∀ (i : Nat) (x y : GCDLog), t[i]? = some x → t[i + 1]? = some y → x.c = y.a ∧ x.d = y.c

/-- What holds of the `j`-th printed state `s` (counting from the initialisation) and the
record `x` it was last built from, the `j`-th record from the end of the trace of
`createLog(a, b)` whose last remainder is `r`. -/
def StateOk (a r : Int) (j : Nat) (s : Coeffs) (x : GCDLog) : Prop :=
  s.a * s.b - s.c * s.d = r ∧ 1 ≤ s.a ∧ s.a ≤ s.d ∧ 1 ≤ s.c ∧ s.c ≤ s.b ∧
    x.a = x.b * x.c + x.d ∧ 0 ≤ x.d ∧ x.d < x.c ∧ x.c < x.a ∧ x.a ≤ a ∧ 1 ≤ x.b ∧
    ((j % 2 = 0 ∧ s.b = x.a ∧ s.d = x.c) ∨ (j % 2 = 1 ∧ s.b = x.c ∧ s.d = x.a))

/-- The branch the `j`-th iteration takes on the state `s` and the record `prev`: the
right substitution on even `j`, the left one on odd `j`, each replacing a base equal to
the remainder of `prev`. -/
def BranchOk (j : Nat) (s : Coeffs) (prev : GCDLog) : Prop :=
  (j % 2 = 0 ∧ prev.d ≠ s.b ∧ prev.d = s.d ∧ prev.c = s.b) ∨
    (j % 2 = 1 ∧ prev.d = s.b ∧ prev.c = s.d)

/-- The invariant of the run of `solveDiophantine` on the trace `t` of `createLog(a, b)`,
over the printed states and the records read from the end of the trace. -/
def RunInv (a b : Int) (t : List GCDLog) : Prop :=
  ∃ (S : List Coeffs) (st : Coeffs) (first last : GCDLog),
    solveStates t = some S ∧ solveState t = some st ∧ S.getLast? = some st ∧
    S.length = t.length ∧
    t.head? = some first ∧ first.a = a ∧ first.c = b ∧ t.getLast? = some last ∧
    (∀ (j : Nat) (s : Coeffs) (x : GCDLog), S[j]? = some s → t.reverse[j]? = some x →
      StateOk a last.d j s x) ∧
    (∀ (j : Nat) (s : Coeffs) (x : GCDLog), S[j]? = some s → t.reverse[j + 1]? = some x →
      S[j + 1]? = some (substitute s x) ∧ BranchOk j s x)

/-! ## Truncating division on the inputs the program admits -/

theorem natAbs_tmod (a b : Int) : (a.tmod b).natAbs = a.natAbs % b.natAbs := by
  cases a <;> cases b <;> simp [Int.tmod, Int.natAbs_neg] <;> rfl

theorem natAbs_tmod_lt (a : Int) {b : Int} (hb : b ≠ 0) :
    (a.tmod b).natAbs < b.natAbs := by
  rw [natAbs_tmod]
  exact Nat.mod_lt _ (Int.natAbs_pos.mpr hb)

theorem tmod_eq_emod_of_pos {a b : Int} (ha : 0 ≤ a) (hb : 0 < b) : a.tmod b = a % b :=
  Int.tmod_eq_emod ha (Int.le_of_lt hb)

theorem tdiv_eq_ediv_of_pos {a b : Int} (ha : 0 ≤ a) (hb : 0 < b) : a.tdiv b = a / b :=
  Int.tdiv_eq_ediv ha (Int.le_of_lt hb)

theorem tmod_bounds {a b : Int} (ha : 0 ≤ a) (hb : 0 < b) :
    0 ≤ a.tmod b ∧ a.tmod b < b :=
  ⟨Int.tmod_nonneg b ha, Int.tmod_lt_of_pos a hb⟩

/-- The division identity of one logged record, `a = (a / b) * b + a % b`. -/
theorem tdiv_mul_add_tmod (a b : Int) : a = a.tdiv b * b + a.tmod b :=
  (Int.tdiv_add_tmod' a b).symm

/-! ## Unfolding `createLog` -/

theorem createLog_zero (gcdLog : List GCDLog) (a : Int) : createLog gcdLog a 0 = none := by
  rw [createLog]; simp

theorem createLog_stop (gcdLog : List GCDLog) (a b : Int) (hb : b ≠ 0)
    (h : a.tmod b = 0 ∨ a.tmod b = 1) :
    createLog gcdLog a b = some (gcdLog ++ [make_gcdLog a (a.tdiv b) b (a.tmod b)]) := by
  rw [createLog]; simp [hb, h]

theorem createLog_rec (gcdLog : List GCDLog) (a b : Int) (hb : b ≠ 0)
    (h : ¬ (a.tmod b = 0 ∨ a.tmod b = 1)) :
    createLog gcdLog a b
      = createLog (gcdLog ++ [make_gcdLog a (a.tdiv b) b (a.tmod b)]) b (a.tmod b) := by
  rw [createLog]; simp [hb, h]

/-- The records already in the vector are kept: the run on `gcdLog` is the run on the
empty vector with `gcdLog` in front. -/
theorem createLog_append (n : Nat) :
    ∀ (gcdLog : List GCDLog) (a b : Int), b.natAbs ≤ n →
      createLog gcdLog a b = (createLog [] a b).map (fun t => gcdLog ++ t) := by
  induction n with
  | zero =>
    intro gcdLog a b hn
    have hb : b = 0 := Int.natAbs_eq_zero.mp (Nat.le_zero.mp hn)
    subst hb
    simp [createLog_zero]
  | succ n ih =>
    intro gcdLog a b hn
    by_cases hb : b = 0
    · subst hb; simp [createLog_zero]
    · by_cases h : a.tmod b = 0 ∨ a.tmod b = 1
      · rw [createLog_stop gcdLog a b hb h, createLog_stop [] a b hb h]; simp
      · have hlt := natAbs_tmod_lt a hb
        have hle : (a.tmod b).natAbs ≤ n := by omega
        rw [createLog_rec gcdLog a b hb h, createLog_rec [] a b hb h,
          ih (gcdLog ++ [make_gcdLog a (a.tdiv b) b (a.tmod b)]) b (a.tmod b) hle,
          ih ([] ++ [make_gcdLog a (a.tdiv b) b (a.tmod b)]) b (a.tmod b) hle]
        cases createLog [] b (a.tmod b) <;> simp

theorem createLog_cons (a b : Int) (hb : b ≠ 0) (h : ¬ (a.tmod b = 0 ∨ a.tmod b = 1)) :
    createLog [] a b
      = (createLog [] b (a.tmod b)).map
          (fun t => make_gcdLog a (a.tdiv b) b (a.tmod b) :: t) := by
  rw [createLog_rec [] a b hb h, createLog_append _ _ b (a.tmod b) (Nat.le_refl _)]
  simp

/-- Whenever the divisor is not zero `createLog` returns a trace: no call it makes
divides by zero. -/
theorem createLog_defined (n : Nat) :
    ∀ (gcdLog : List GCDLog) (a b : Int), b.natAbs ≤ n → b ≠ 0 →
      ∃ t, createLog gcdLog a b = some t := by
  induction n with
  | zero => intro gcdLog a b hn hb; omega
  | succ n ih =>
    intro gcdLog a b hn hb
    by_cases h : a.tmod b = 0 ∨ a.tmod b = 1
    · exact ⟨_, createLog_stop gcdLog a b hb h⟩
    · have hlt := natAbs_tmod_lt a hb
      rw [createLog_rec gcdLog a b hb h]
      exact ih _ b (a.tmod b) (by omega) (fun h0 => h (Or.inl h0))

/-- Induction along the recursion of `createLog` for inputs `a > b > 0`: a property that
holds of the one-record trace when the remainder is `0` or `1`, and is carried from the
trace of `(b, a % b)` to the trace of `(a, b)` when the remainder is at least `2`, holds
of the trace `createLog` returns. In particular `createLog` returns a trace. -/
theorem createLog_induction (P : Int → Int → List GCDLog → Prop)
    (stop : ∀ a b : Int, 0 < b → b < a → (a.tmod b = 0 ∨ a.tmod b = 1) →
      P a b [make_gcdLog a (a.tdiv b) b (a.tmod b)])
    (step : ∀ (a b : Int) (rest : List GCDLog), 0 < b → b < a → 2 ≤ a.tmod b →
      a.tmod b < b → createLog [] b (a.tmod b) = some rest → P b (a.tmod b) rest →
      P a b (make_gcdLog a (a.tdiv b) b (a.tmod b) :: rest)) :
    ∀ a b : Int, 0 < b → b < a → ∃ t, createLog [] a b = some t ∧ P a b t := by
  have main : ∀ (n : Nat) (a b : Int), b.natAbs ≤ n → 0 < b → b < a →
      ∃ t, createLog [] a b = some t ∧ P a b t := by
    intro n
    induction n with
    | zero => intro a b hn hb _; omega
    | succ n ih =>
      intro a b hn hb hab
      have hb0 : b ≠ 0 := by omega
      have hbd := tmod_bounds (a := a) (b := b) (by omega) hb
      by_cases h : a.tmod b = 0 ∨ a.tmod b = 1
      · exact ⟨_, createLog_stop [] a b hb0 h, stop a b hb hab h⟩
      · have h2 : 2 ≤ a.tmod b := by omega
        have hle : (a.tmod b).natAbs ≤ n := by omega
        obtain ⟨rest, hrest, hP⟩ := ih b (a.tmod b) hle (by omega) hbd.2
        refine ⟨_, ?_, step a b rest hb hab h2 hbd.2 hrest hP⟩
        rw [createLog_cons a b hb0 h, hrest]; rfl
  intro a b hb hab
  exact main b.natAbs a b (Nat.le_refl _) hb hab

/-! ## The back-substitution as a recursion over the trace -/

theorem solveLoop_cons (x : GCDLog) (rest : List GCDLog) :
    ∀ (k : Nat) (s : Coeffs),
      solveLoop (x :: rest) (k + 1) s = (solveLoop rest k s).map (fun r => substitute r x) := by
  intro k
  induction k with
  | zero => intro s; simp [solveLoop]
  | succ k ih =>
    intro s
    rw [solveLoop, List.getElem?_cons_succ]
    cases hk : rest[k]? with
    | none => simp [solveLoop, hk]
    | some prev => simp only [ih]; simp [solveLoop, hk]

theorem solveState_singleton (x : GCDLog) :
    solveState [x] = some { a := 1, b := x.a, c := x.b, d := x.c } := by
  simp [solveState, solveLoop]

/-- On a trace of two records or more the first record is the last one the loop visits. -/
theorem solveState_cons (x y : GCDLog) (rest : List GCDLog) :
    solveState (x :: y :: rest) = (solveState (y :: rest)).map (fun r => substitute r x) := by
  have h1 : (x :: y :: rest).length - 1 = (y :: rest).length - 1 + 1 := by simp
  have h2 : (x :: y :: rest)[(y :: rest).length - 1 + 1]? = (y :: rest)[(y :: rest).length - 1]? :=
    List.getElem?_cons_succ
  unfold solveState
  rw [h1, h2]
  cases hl : (y :: rest)[(y :: rest).length - 1]? with
  | none => simp
  | some last => simp [solveLoop_cons]

theorem solveState_isSome (t : List GCDLog) (ht : t ≠ []) : ∃ s, solveState t = some s := by
  induction t with
  | nil => exact absurd rfl ht
  | cons x rest ih =>
    cases rest with
    | nil => exact ⟨_, solveState_singleton x⟩
    | cons y rest =>
      obtain ⟨s, hs⟩ := ih (by simp)
      exact ⟨substitute s x, by rw [solveState_cons, hs]; rfl⟩

theorem solveDiophantine_eq (t : List GCDLog) (n : Int) (s : Coeffs)
    (h : solveState t = some s) : solveDiophantine t n = some (s, printAnswer s n) := by
  simp [solveDiophantine, h]

/-! ## The recursive `gcd` on positive inputs -/

theorem gcd_stop (a b : Int) (hb : b ≠ 0) (h : a.tmod b = 0) : gcd a b = some b := by
  rw [gcd]; simp [hb, h]

theorem gcd_rec (a b : Int) (hb : b ≠ 0) (h : a.tmod b ≠ 0) :
    gcd a b = gcd b (a.tmod b) := by
  rw [gcd]; simp [hb, h]

theorem int_gcd_tmod (a b : Int) : Int.gcd b (a.tmod b) = Int.gcd a b := by
  unfold Int.gcd
  rw [natAbs_tmod, Nat.gcd_comm a.natAbs, Nat.gcd_rec b.natAbs a.natAbs, Nat.gcd_comm]

/-- On `a >= 0` and `b > 0` the recursive `gcd` returns the greatest common divisor. -/
theorem gcd_eq_int_gcd : ∀ (n : Nat) (a b : Int), b.natAbs ≤ n → 0 ≤ a → 0 < b →
    gcd a b = some (Int.gcd a b : Int) := by
  intro n
  induction n with
  | zero => intro a b hn _ hb; omega
  | succ n ih =>
    intro a b hn ha hb
    have hb0 : b ≠ 0 := by omega
    have hbd := tmod_bounds ha hb
    by_cases h : a.tmod b = 0
    · rw [gcd_stop a b hb0 h]
      have hdvd : b ∣ a := Int.dvd_of_tmod_eq_zero h
      rw [Int.gcd_eq_right hdvd]
      simp [abs_of_pos hb]
    · rw [gcd_rec a b hb0 h, ih b (a.tmod b) (by omega) (by omega) (by omega), int_gcd_tmod]

theorem gcd_pos_eq (a b : Int) (ha : 0 < a) (hb : 0 < b) :
    gcd a b = some (Int.gcd a b : Int) :=
  gcd_eq_int_gcd b.natAbs a b (Nat.le_refl _) (Int.le_of_lt ha) hb

/-! ## Facts about the trace of `createLog`, by induction along its recursion -/

/-- The record pushed by a call with `a > b > 0` is a Euclidean division. -/
theorem head_record (a b : Int) (hb : 0 < b) (hab : b < a) :
    a = a.tdiv b * b + a.tmod b ∧ 0 ≤ a.tmod b ∧ a.tmod b < b ∧ 1 ≤ a.tdiv b := by
  have hbd := tmod_bounds (a := a) (b := b) (by omega) hb
  refine ⟨tdiv_mul_add_tmod a b, hbd.1, hbd.2, ?_⟩
  rw [tdiv_eq_ediv_of_pos (by omega) hb]
  exact (Int.le_ediv_iff_mul_le hb).mpr (by omega)

theorem trace_chain (a b : Int) (hb : 0 < b) (hab : b < a) :
    ∃ t, createLog [] a b = some t ∧
      (∃ first, t[0]? = some first ∧ first.a = a ∧ first.c = b) ∧
      ∀ (i : Nat) (x y : GCDLog), t[i]? = some x → t[i + 1]? = some y →
        x.c = y.a ∧ x.d = y.c := by
  refine createLog_induction
    (fun a b t => (∃ first, t[0]? = some first ∧ first.a = a ∧ first.c = b) ∧
      ∀ (i : Nat) (x y : GCDLog), t[i]? = some x → t[i + 1]? = some y →
        x.c = y.a ∧ x.d = y.c) ?_ ?_ a b hb hab
  · intro a b _ _ _
    refine ⟨⟨_, rfl, rfl, rfl⟩, ?_⟩
    intro i x y _ hy
    simp at hy
  · intro a b rest _ _ _ _ _ ih
    obtain ⟨⟨first, hf, hfa, hfc⟩, hchain⟩ := ih
    refine ⟨⟨make_gcdLog a (a.tdiv b) b (a.tmod b), List.getElem?_cons_zero, rfl, rfl⟩, ?_⟩
    intro i x y hx hy
    cases i with
    | zero =>
      simp only [List.getElem?_cons_zero, Option.some.injEq] at hx
      rw [List.getElem?_cons_succ, hf] at hy
      simp only [Option.some.injEq] at hy
      subst hx; subst hy
      exact ⟨hfa.symm, hfc.symm⟩
    | succ i =>
      rw [List.getElem?_cons_succ] at hx hy
      exact hchain i x y hx hy

theorem trace_records (a b : Int) (hb : 0 < b) (hab : b < a) :
    ∃ t, createLog [] a b = some t ∧
      ∀ x ∈ t, x.a = x.b * x.c + x.d ∧ 0 ≤ x.d ∧ x.d < x.c ∧ 1 ≤ x.b ∧ x.c < x.a := by
  refine createLog_induction
    (fun _ _ t => ∀ x ∈ t,
      x.a = x.b * x.c + x.d ∧ 0 ≤ x.d ∧ x.d < x.c ∧ 1 ≤ x.b ∧ x.c < x.a) ?_ ?_ a b hb hab
  · intro a b hb hab _ x hx
    obtain ⟨h1, h2, h3, h4⟩ := head_record a b hb hab
    simp only [List.mem_singleton] at hx
    subst hx
    exact ⟨h1, h2, h3, h4, hab⟩
  · intro a b rest hb hab _ _ _ ih x hx
    obtain ⟨h1, h2, h3, h4⟩ := head_record a b hb hab
    rcases List.mem_cons.mp hx with hx | hx
    · subst hx
      exact ⟨h1, h2, h3, h4, hab⟩
    · exact ih x hx

theorem trace_stop (a b : Int) (hb : 0 < b) (hab : b < a) :
    ∃ t, createLog [] a b = some t ∧
      ∃ (front : List GCDLog) (last : GCDLog), t = front ++ [last] ∧
        (last.d = 0 ∨ last.d = 1) ∧ ∀ x ∈ front, 2 ≤ x.d := by
  refine createLog_induction
    (fun _ _ t => ∃ (front : List GCDLog) (last : GCDLog), t = front ++ [last] ∧
        (last.d = 0 ∨ last.d = 1) ∧ ∀ x ∈ front, 2 ≤ x.d) ?_ ?_ a b hb hab
  · intro a b _ _ h
    exact ⟨[], _, rfl, h, by simp⟩
  · intro a b rest _ _ h2 _ _ ih
    obtain ⟨front, last, hrest, hlast, hfront⟩ := ih
    refine ⟨make_gcdLog a (a.tdiv b) b (a.tmod b) :: front, last, by rw [hrest]; rfl, hlast, ?_⟩
    intro x hx
    rcases List.mem_cons.mp hx with hx | hx
    · subst hx; exact h2
    · exact hfront x hx

/-- The remainder of the last record is `0` or `1`, and it is `1` exactly when the inputs
are coprime and `b >= 2`. -/
theorem trace_last_remainder (a b : Int) (hb : 0 < b) (hab : b < a) :
    ∃ t, createLog [] a b = some t ∧
      ∃ last, t.getLast? = some last ∧ (last.d = 0 ∨ last.d = 1) ∧
        (last.d = 1 ↔ (Int.gcd a b = 1 ∧ 2 ≤ b)) := by
  refine createLog_induction
    (fun a b t => ∃ last, t.getLast? = some last ∧ (last.d = 0 ∨ last.d = 1) ∧
        (last.d = 1 ↔ (Int.gcd a b = 1 ∧ 2 ≤ b))) ?_ ?_ a b hb hab
  · intro a b hb hab h
    refine ⟨_, rfl, h, ?_⟩
    have hbd := tmod_bounds (a := a) (b := b) (by omega) hb
    have hg := int_gcd_tmod a b
    show a.tmod b = 1 ↔ _
    rcases h with h | h
    · rw [h] at hg
      have hgb : Int.gcd a b = b.natAbs := by rw [← hg]; simp
      constructor
      · intro h1; omega
      · rintro ⟨h1, h2⟩; omega
    · rw [h] at hg
      have hg1 : Int.gcd a b = 1 := by rw [← hg]; simp
      constructor
      · intro _; exact ⟨hg1, by omega⟩
      · intro _; exact h
  · intro a b rest hb hab h2 hlt _ ih
    obtain ⟨last, hlast, h01, hiff⟩ := ih
    have hne : rest ≠ [] := by
      intro h; rw [h] at hlast; simp at hlast
    obtain ⟨y, rest1, hrest⟩ := List.exists_cons_of_ne_nil hne
    refine ⟨last, ?_, h01, ?_⟩
    · rw [hrest, List.getLast?_cons_cons, ← hrest]; exact hlast
    · rw [hiff, int_gcd_tmod a b]
      constructor
      · rintro ⟨h1, _⟩; exact ⟨h1, by omega⟩
      · rintro ⟨h1, _⟩; exact ⟨h1, h2⟩

/-! ## The back-substitution on the trace of `createLog` -/

/-- The right substitution keeps `a(b) - c(d)` when the record replaces the base `d`. -/
theorem substitute_right (s : Coeffs) (prev : GCDLog) (hid : prev.a = prev.b * prev.c + prev.d)
    (hne : prev.d ≠ s.b) (hc : prev.c = s.b) (hd : prev.d = s.d) :
    substitute s prev = { a := s.a + s.c * prev.b, b := s.b, c := s.c, d := prev.a } ∧
      (s.a + s.c * prev.b) * s.b - s.c * prev.a = s.a * s.b - s.c * s.d := by
  refine ⟨by simp [substitute, hne], ?_⟩
  rw [← hd, ← hc]
  linear_combination (-s.c) * hid

/-- The left substitution keeps `a(b) - c(d)` when the record replaces the base `b`. -/
theorem substitute_left (s : Coeffs) (prev : GCDLog) (hid : prev.a = prev.b * prev.c + prev.d)
    (hb : prev.d = s.b) (hc : prev.c = s.d) :
    substitute s prev = { a := s.a, b := prev.a, c := s.c + s.a * prev.b, d := s.d } ∧
      s.a * prev.a - (s.c + s.a * prev.b) * s.d = s.a * s.b - s.c * s.d := by
  refine ⟨by simp [substitute, hb], ?_⟩
  rw [← hb, ← hc]
  linear_combination s.a * hid

/-- The state `solveDiophantine` ends in on the trace of `createLog(a, b)`: the value of
`a(b) - c(d)` is the remainder of the last record, and the two bases are the inputs, in
the order given by the parity of the length of the trace. -/
theorem solve_invariant (a b : Int) (hb : 0 < b) (hab : b < a) :
    ∃ t, createLog [] a b = some t ∧
      ∃ (st : Coeffs) (last : GCDLog), solveState t = some st ∧ t.getLast? = some last ∧
        st.a * st.b - st.c * st.d = last.d ∧
        ((t.length % 2 = 1 ∧ st.b = a ∧ st.d = b) ∨
          (t.length % 2 = 0 ∧ st.b = b ∧ st.d = a)) := by
  refine createLog_induction
    (fun a b t => ∃ (st : Coeffs) (last : GCDLog), solveState t = some st ∧
        t.getLast? = some last ∧ st.a * st.b - st.c * st.d = last.d ∧
        ((t.length % 2 = 1 ∧ st.b = a ∧ st.d = b) ∨
          (t.length % 2 = 0 ∧ st.b = b ∧ st.d = a))) ?_ ?_ a b hb hab
  · intro a b _ _ _
    refine ⟨_, _, solveState_singleton _, rfl, ?_, Or.inl ⟨rfl, rfl, rfl⟩⟩
    show 1 * a - a.tdiv b * b = a.tmod b
    have := tdiv_mul_add_tmod a b
    linarith
  · intro a b rest _ _ _ hlt _ ih
    obtain ⟨st, last, hst, hlast, hinv, hbase⟩ := ih
    have hne : rest ≠ [] := by
      intro h; rw [h] at hlast; simp at hlast
    obtain ⟨y, rest1, hrest⟩ := List.exists_cons_of_ne_nil hne
    have hsolve : solveState (make_gcdLog a (a.tdiv b) b (a.tmod b) :: rest)
        = some (substitute st (make_gcdLog a (a.tdiv b) b (a.tmod b))) := by
      rw [hrest, solveState_cons, ← hrest, hst]; rfl
    have hgl : (make_gcdLog a (a.tdiv b) b (a.tmod b) :: rest).getLast? = some last := by
      rw [hrest, List.getLast?_cons_cons, ← hrest]; exact hlast
    have hid : (make_gcdLog a (a.tdiv b) b (a.tmod b)).a
        = (make_gcdLog a (a.tdiv b) b (a.tmod b)).b * (make_gcdLog a (a.tdiv b) b (a.tmod b)).c
          + (make_gcdLog a (a.tdiv b) b (a.tmod b)).d := tdiv_mul_add_tmod a b
    refine ⟨_, last, hsolve, hgl, ?_⟩
    rcases hbase with ⟨hpar, hsb, hsd⟩ | ⟨hpar, hsb, hsd⟩
    · have hne2 : (make_gcdLog a (a.tdiv b) b (a.tmod b)).d ≠ st.b := by
        show a.tmod b ≠ st.b
        omega
      obtain ⟨heq, hkeep⟩ := substitute_right st _ hid hne2 hsb.symm hsd.symm
      rw [heq]
      refine ⟨?_, Or.inr ⟨?_, hsb, rfl⟩⟩
      · rw [← hinv]; exact hkeep
      · simp only [List.length_cons]; omega
    · obtain ⟨heq, hkeep⟩ := substitute_left st _ hid hsb.symm hsd.symm
      rw [heq]
      refine ⟨?_, Or.inl ⟨?_, rfl, hsd⟩⟩
      · rw [← hinv]; exact hkeep
      · simp only [List.length_cons]; omega

/-! ## The feasibility test -/

theorem int_gcd_pos_of_pos (a b : Int) (hb : 0 < b) : (0 : Int) < (Int.gcd a b : Int) := by
  have : 0 < Int.gcd a b := Int.gcd_pos_of_ne_zero_right a (by omega)
  exact_mod_cast this

/-- On positive inputs the test of `main` is defined and decides whether the greatest
common divisor of `a` and `b` divides `n`. -/
theorem feasible_eq (a b n : Int) (ha : 0 < a) (hb : 0 < b) (hn : 0 < n) :
    feasible a b n = some (decide (n % (Int.gcd a b : Int) = 0)) := by
  have hg := int_gcd_pos_of_pos a b hb
  unfold feasible
  rw [gcd_pos_eq a b ha hb]
  simp only
  rw [gcd_pos_eq _ n hg hn]
  simp only [Option.some.injEq, decide_eq_decide]
  constructor
  · intro h
    have hd : ((Int.gcd (Int.gcd a b : Int) n : Nat) : Int) ∣ n := Int.gcd_dvd_right
    rw [← h] at hd
    exact Int.emod_eq_zero_of_dvd hd
  · intro h
    have hd : (Int.gcd a b : Int) ∣ n := Int.dvd_of_emod_eq_zero h
    rw [Int.gcd_eq_left hd]
    simp

/-! ## Runs on concrete inputs -/

theorem trace_35_15 :
    createLog [] 35 15 = some [⟨35, 2, 15, 5⟩, ⟨15, 3, 5, 0⟩] := by
  rw [createLog_rec [] 35 15 (by decide) (by decide)]
  show createLog [⟨35, 2, 15, 5⟩] 15 5 = _
  rw [createLog_stop _ 15 5 (by decide) (by decide)]
  rfl

theorem trace_7_5 :
    createLog [] 7 5 = some [⟨7, 1, 5, 2⟩, ⟨5, 2, 2, 1⟩] := by
  rw [createLog_rec [] 7 5 (by decide) (by decide)]
  show createLog [⟨7, 1, 5, 2⟩] 5 2 = _
  rw [createLog_stop _ 5 2 (by decide) (by decide)]
  rfl

theorem trace_2_1 : createLog [] 2 1 = some [⟨2, 2, 1, 0⟩] := by
  rw [createLog_stop _ 2 1 (by decide) (by decide)]
  rfl

theorem trace_neg7_3 :
    createLog [] (-7) 3 = some [⟨-7, -2, 3, -1⟩, ⟨3, -3, -1, 0⟩] := by
  rw [createLog_rec [] (-7) 3 (by decide) (by decide)]
  show createLog [⟨-7, -2, 3, -1⟩] 3 (-1) = _
  rw [createLog_stop _ 3 (-1) (by decide) (by decide)]
  rfl

theorem feasible_35_15_10 : feasible 35 15 10 = some true :=
  (feasible_eq 35 15 10 (by decide) (by decide) (by decide)).trans (by decide)

theorem main_35_15_10 :
    main 35 15 10 = some (Outcome.answer ⟨7, 15, 3, 35⟩ ⟨15, 70, 35, 30, 10⟩) := by
  unfold main
  rw [feasible_35_15_10, trace_35_15]
  decide

/-! ## The properties of the specification -/

/-- Claim C1, evaluated on the code: the input `a = 35, b = 15, n = 10` passes the range
checks and the feasibility test of `main`, the trace is `35 = 2(15) + 5`, `15 = 3(5) + 0`,
and `solveDiophantine` ends in `(a, b, c, d) = (7, 15, 3, 35)` and prints
`15(70) - 35(30) = 10`, whose left side is `0`: the printed answer does not solve
`35x + 15y = 10`. -/
theorem answer_35_15_10_wrong :
    feasible 35 15 10 = some true ∧
    createLog [] 35 15 = some [⟨35, 2, 15, 5⟩, ⟨15, 3, 5, 0⟩] ∧
    solveDiophantine [⟨35, 2, 15, 5⟩, ⟨15, 3, 5, 0⟩] 10
      = some (⟨7, 15, 3, 35⟩, ⟨15, 70, 35, 30, 10⟩) ∧
    main 35 15 10 = some (Outcome.answer ⟨7, 15, 3, 35⟩ ⟨15, 70, 35, 30, 10⟩) ∧
    (15 : Int) * (7 * 10) - 35 * (3 * 10) = 0 ∧
    ¬ Equation.holds ⟨15, 70, 35, 30, 10⟩ :=
  ⟨feasible_35_15_10, trace_35_15, by decide, main_35_15_10, by decide, by decide⟩

/-- Claim C3: for all positive `a, b, n` the feasibility test of `main`,
`gcd(a, b) == gcd(gcd(a, b), n)` with the recursive `gcd` of the program, is defined and
is true if and only if `n mod g = 0`, where `g` is the greatest common divisor of `a`
and `b`. -/
theorem feasible_iff_gcd_divides (a b n : Int) (ha : 0 < a) (hb : 0 < b) (hn : 0 < n) :
    (∃ r, feasible a b n = some r) ∧
      (feasible a b n = some true ↔ n % (Int.gcd a b : Int) = 0) := by
  rw [feasible_eq a b n ha hb hn]
  exact ⟨⟨_, rfl⟩, by simp⟩

/-- Witness for C3: `(35, 15, 10)` is feasible and `(4, 2, 3)` is not. -/
theorem feasible_iff_gcd_divides_witness :
    ((0 : Int) < 35 ∧ (0 : Int) < 15 ∧ (0 : Int) < 10) ∧
    feasible 35 15 10 = some true ∧
    ((0 : Int) < 4 ∧ (0 : Int) < 2 ∧ (0 : Int) < 3) ∧
    ¬ (feasible 4 2 3 = some true) :=
  ⟨by decide,
    (feasible_iff_gcd_divides 35 15 10 (by decide) (by decide) (by decide)).2.mpr (by decide),
    by decide,
    fun h => absurd
      ((feasible_iff_gcd_divides 4 2 3 (by decide) (by decide) (by decide)).2.mp h)
      (by decide)⟩

/-- Claim C4: for `a > b > 0` the trace `createLog(a, b)` appends to the empty vector
starts with a record of dividend `a` and divisor `b`, and every two adjacent records
`x, y` satisfy `x.divisor = y.dividend` and `x.remainder = y.divisor`. -/
theorem createLog_chain (a b : Int) (hb : 0 < b) (hab : b < a) :
    ∃ t, createLog [] a b = some t ∧
      (∃ first, t[0]? = some first ∧ first.a = a ∧ first.c = b) ∧
      ∀ (i : Nat) (x y : GCDLog), t[i]? = some x → t[i + 1]? = some y →
        x.c = y.a ∧ x.d = y.c :=
  trace_chain a b hb hab

/-- Witness for C4: `a = 35, b = 15`. -/
theorem createLog_chain_witness :
    ((0 : Int) < 15 ∧ (15 : Int) < 35) ∧
    ∃ t, createLog [] 35 15 = some t ∧
      (∃ first, t[0]? = some first ∧ first.a = 35 ∧ first.c = 15) ∧
      ∀ (i : Nat) (x y : GCDLog), t[i]? = some x → t[i + 1]? = some y →
        x.c = y.a ∧ x.d = y.c :=
  ⟨by decide, createLog_chain 35 15 (by decide) (by decide)⟩

/-- Claim C5: for `a > b > 0` every record `(dividend, quotient, divisor, remainder)` of
the trace of `createLog(a, b)` satisfies `dividend = quotient * divisor + remainder`,
`0 <= remainder < divisor`, `quotient >= 1` and `dividend > divisor`. -/
theorem createLog_division (a b : Int) (hb : 0 < b) (hab : b < a) :
    ∃ t, createLog [] a b = some t ∧
      ∀ x ∈ t, x.a = x.b * x.c + x.d ∧ 0 ≤ x.d ∧ x.d < x.c ∧ 1 ≤ x.b ∧ x.c < x.a :=
  trace_records a b hb hab

/-- Witness for C5: `a = 35, b = 15`. -/
theorem createLog_division_witness :
    ((0 : Int) < 15 ∧ (15 : Int) < 35) ∧
    ∃ t, createLog [] 35 15 = some t ∧
      ∀ x ∈ t, x.a = x.b * x.c + x.d ∧ 0 ≤ x.d ∧ x.d < x.c ∧ 1 ≤ x.b ∧ x.c < x.a :=
  ⟨by decide, createLog_division 35 15 (by decide) (by decide)⟩

/-- Claim C6: for `a > b > 0` the last record of the trace of `createLog(a, b)` has
remainder `0` or `1`, and every record before the last has remainder at least `2`. -/
theorem createLog_stops_at_first (a b : Int) (hb : 0 < b) (hab : b < a) :
    ∃ t, createLog [] a b = some t ∧
      ∃ (front : List GCDLog) (last : GCDLog), t = front ++ [last] ∧
        (last.d = 0 ∨ last.d = 1) ∧ ∀ x ∈ front, 2 ≤ x.d :=
  trace_stop a b hb hab

/-- Witness for C6: `a = 7, b = 5`. -/
theorem createLog_stops_at_first_witness :
    ((0 : Int) < 5 ∧ (5 : Int) < 7) ∧
    ∃ t, createLog [] 7 5 = some t ∧
      ∃ (front : List GCDLog) (last : GCDLog), t = front ++ [last] ∧
        (last.d = 0 ∨ last.d = 1) ∧ ∀ x ∈ front, 2 ≤ x.d :=
  ⟨by decide, createLog_stops_at_first 7 5 (by decide) (by decide)⟩

/-- Claim C7 as stated fails at `a = 2, b = 1`: the inputs are coprime, the trace is the
single record `2 = 2(1) + 0`, and its remainder is `0`, not `gcd(2, 1) = 1`. -/
theorem last_remainder_not_gcd :
    createLog [] 2 1 = some [⟨2, 2, 1, 0⟩] ∧ Int.gcd 2 1 = 1 ∧
    ¬ (∀ a b : Int, 0 < b → b < a → ∀ (t : List GCDLog) (last : GCDLog),
        createLog [] a b = some t → t.getLast? = some last →
        (Int.gcd a b = 1 → last.d = (Int.gcd a b : Int)) ∧ (1 < Int.gcd a b → last.d = 0)) := by
  refine ⟨trace_2_1, by decide, ?_⟩
  intro h
  have h1 := (h 2 1 (by decide) (by decide) [⟨2, 2, 1, 0⟩] ⟨2, 2, 1, 0⟩ trace_2_1 rfl).1
    (by decide)
  exact absurd h1 (by decide)

/-- Claim C7, amended: for `a > b > 0` the remainder of the last record of the trace of
`createLog(a, b)` equals `gcd(a, b)`, that is `1`, whenever `gcd(a, b) = 1` and `b >= 2`;
it is `0` whenever `gcd(a, b) > 1`, and it is `0` when `b = 1`. -/
theorem last_remainder (a b : Int) (hb : 0 < b) (hab : b < a) :
    ∃ (t : List GCDLog) (last : GCDLog), createLog [] a b = some t ∧
      t.getLast? = some last ∧
      (Int.gcd a b = 1 → 2 ≤ b → last.d = (Int.gcd a b : Int) ∧ last.d = 1) ∧
      (1 < Int.gcd a b → last.d = 0) ∧
      (b = 1 → last.d = 0) := by
  obtain ⟨t, ht, last, hlast, h01, hiff⟩ := trace_last_remainder a b hb hab
  refine ⟨t, last, ht, hlast, ?_, ?_, ?_⟩
  · intro hg h2
    have h1 : last.d = 1 := hiff.mpr ⟨hg, h2⟩
    exact ⟨by rw [h1, hg]; rfl, h1⟩
  · intro hg
    rcases h01 with h | h
    · exact h
    · have := (hiff.mp h).1
      omega
  · intro hb1
    rcases h01 with h | h
    · exact h
    · have := (hiff.mp h).2
      omega

/-- Witness for C7 as amended: `a = 7, b = 5`. -/
theorem last_remainder_witness :
    ((0 : Int) < 5 ∧ (5 : Int) < 7) ∧
    ∃ (t : List GCDLog) (last : GCDLog), createLog [] 7 5 = some t ∧
      t.getLast? = some last ∧
      (Int.gcd 7 5 = 1 → (2 : Int) ≤ 5 → last.d = (Int.gcd 7 5 : Int) ∧ last.d = 1) ∧
      (1 < Int.gcd 7 5 → last.d = 0) ∧
      ((5 : Int) = 1 → last.d = 0) :=
  ⟨by decide, last_remainder 7 5 (by decide) (by decide)⟩

/-- Claim C8 as stated fails at `a = -7, b = 3`: the C++ remainder `-7 % 3` is `-1`, which
is neither `0` nor `1`, so `createLog` recurses on `(3, -1)`; the second argument of that
call is not in `2 <= a mod b < b` and is not positive. -/
theorem createLog_negative_dividend :
    createLog [] (-7) 3 = some [⟨-7, -2, 3, -1⟩, ⟨3, -3, -1, 0⟩] ∧
    ¬ (∀ (gcdLog : List GCDLog) (a b : Int), 0 < b → ¬ (a.tmod b = 0 ∨ a.tmod b = 1) →
        createLog gcdLog a b
          = createLog (gcdLog ++ [make_gcdLog a (a.tdiv b) b (a.tmod b)]) b (a.tmod b) ∧
        2 ≤ a.tmod b ∧ a.tmod b < b) := by
  refine ⟨trace_neg7_3, ?_⟩
  intro h
  have h1 := (h [] (-7) 3 (by decide) (by decide)).2.1
  exact absurd h1 (by decide)

/-- Claim C8, amended: for all integers `a` and `b` with `b > 0`, `createLog(a, b)`
returns a trace, evaluating no division by zero; when it recurses, the call is made on
`(b, a mod b)` with `a mod b` nonzero and `|a mod b| < |b|`, the measure of the
well-founded recursion; and when `a >= 0` (in particular `a > b > 0`) that call is made
with `2 <= a mod b < b`, so the second argument strictly decreases and stays positive, and
the same holds again of the call made. -/
theorem createLog_terminates (gcdLog : List GCDLog) (a b : Int) (hb : 0 < b) :
    (∃ t, createLog gcdLog a b = some t) ∧
    (¬ (a.tmod b = 0 ∨ a.tmod b = 1) →
      createLog gcdLog a b
        = createLog (gcdLog ++ [make_gcdLog a (a.tdiv b) b (a.tmod b)]) b (a.tmod b) ∧
      a.tmod b ≠ 0 ∧ (a.tmod b).natAbs < b.natAbs ∧
      (0 ≤ a → 2 ≤ a.tmod b ∧ a.tmod b < b ∧ 0 ≤ b ∧ 0 < a.tmod b)) := by
  have hb0 : b ≠ 0 := by omega
  refine ⟨createLog_defined b.natAbs gcdLog a b (Nat.le_refl _) hb0, ?_⟩
  intro h
  refine ⟨createLog_rec gcdLog a b hb0 h, fun h0 => h (Or.inl h0), natAbs_tmod_lt a hb0, ?_⟩
  intro ha
  have hbd := tmod_bounds ha hb
  exact ⟨by omega, hbd.2, by omega, by omega⟩

/-- Witness for C8 as amended: the call `createLog(35, 15)` recurses on `(15, 5)`. -/
theorem createLog_terminates_witness :
    (0 : Int) < 15 ∧
    ((∃ t, createLog [] 35 15 = some t) ∧
    (¬ ((35 : Int).tmod 15 = 0 ∨ (35 : Int).tmod 15 = 1) →
      createLog [] 35 15
        = createLog ([] ++ [make_gcdLog 35 ((35 : Int).tdiv 15) 15 ((35 : Int).tmod 15)])
            15 ((35 : Int).tmod 15) ∧
      (35 : Int).tmod 15 ≠ 0 ∧ ((35 : Int).tmod 15).natAbs < (15 : Int).natAbs ∧
      ((0 : Int) ≤ 35 → 2 ≤ (35 : Int).tmod 15 ∧ (35 : Int).tmod 15 < 15 ∧
        (0 : Int) ≤ 15 ∧ 0 < (35 : Int).tmod 15))) :=
  ⟨by decide, createLog_terminates [] 35 15 (by decide)⟩

/-- Claim C9: for `a > b > 0` with `a mod b` in `{0, 1}`, `createLog(a, b)` produces the
single record `(a, a / b, b, a mod b)`; the loop of `solveDiophantine` starts at index
`size - 2 = -1` and runs no iteration, and the final state is the initialisation
`(1, a, a / b, b)`. -/
theorem single_record (a b n : Int) (hb : 0 < b) (hab : b < a)
    (hr : a % b = 0 ∨ a % b = 1) :
    ∃ t, createLog [] a b = some t ∧ t = [⟨a, a / b, b, a % b⟩] ∧
      t.length - 1 = 0 ∧
      solveState t = solveLoop t 0 ⟨1, a, a / b, b⟩ ∧
      solveDiophantine t n = some (⟨1, a, a / b, b⟩, printAnswer ⟨1, a, a / b, b⟩ n) := by
  have hm := tmod_eq_emod_of_pos (a := a) (b := b) (by omega) hb
  have hd := tdiv_eq_ediv_of_pos (a := a) (b := b) (by omega) hb
  have ht : createLog [] a b = some [⟨a, a / b, b, a % b⟩] := by
    rw [createLog_stop [] a b (by omega) (by rw [hm]; exact hr), hm, hd]
    rfl
  refine ⟨_, ht, rfl, rfl, ?_, ?_⟩
  · rw [solveState_singleton]; rfl
  · exact solveDiophantine_eq _ n _ (solveState_singleton _)

/-- Witness for C9: `a = 2, b = 1, n = 1` gives the single record `(2, 2, 1, 0)` and the
state `(1, 2, 2, 1)`. -/
theorem single_record_witness :
    ((0 : Int) < 1 ∧ (1 : Int) < 2 ∧ ((2 : Int) % 1 = 0 ∨ (2 : Int) % 1 = 1)) ∧
    createLog [] 2 1 = some [⟨2, 2, 1, 0⟩] ∧
    solveState [⟨2, 2, 1, 0⟩] = some ⟨1, 2, 2, 1⟩ ∧
    ∃ t, createLog [] 2 1 = some t ∧ t = [⟨2, 2 / 1, 1, 2 % 1⟩] ∧
      t.length - 1 = 0 ∧
      solveState t = solveLoop t 0 ⟨1, 2, 2 / 1, 1⟩ ∧
      solveDiophantine t 1 = some (⟨1, 2, 2 / 1, 1⟩, printAnswer ⟨1, 2, 2 / 1, 1⟩ 1) :=
  ⟨by decide, trace_2_1, by decide,
    single_record 2 1 1 (by decide) (by decide) (by decide)⟩

/-- Claim C10: for `a > b > 0` the call `createLog(a, b)` of `main` evaluates no division
or modulo by zero (it returns a trace, and every divisor in it is at least `1`), the
trace is not empty, the access `gcdLog[size - 1]` and every access `gcdLog[i]` of the
loop, `0 <= i <= size - 2`, are in bounds, and `solveDiophantine` returns. -/
theorem pipeline_in_bounds (a b n : Int) (hb : 0 < b) (hab : b < a) :
    ∃ t, createLog [] a b = some t ∧ t ≠ [] ∧ (∀ x ∈ t, 1 ≤ x.c) ∧
      (∃ last, t[t.length - 1]? = some last) ∧
      (∀ i : Nat, i + 2 ≤ t.length → ∃ prev, t[i]? = some prev) ∧
      (∃ st, solveDiophantine t n = some (st, printAnswer st n)) := by
  obtain ⟨t, ht, hrec⟩ := trace_records a b hb hab
  obtain ⟨t2, ht2, st, last, hst, hlast, _, _⟩ := solve_invariant a b hb hab
  have htt : t2 = t := Option.some.inj (ht2.symm.trans ht)
  subst htt
  have hne : t2 ≠ [] := by
    intro h; rw [h] at hlast; simp at hlast
  have hlen : 0 < t2.length := List.length_pos.mpr hne
  refine ⟨t2, ht, hne, ?_, ?_, ?_, st, solveDiophantine_eq t2 n st hst⟩
  · intro x hx
    obtain ⟨_, h2, h3, _, _⟩ := hrec x hx
    omega
  · exact ⟨t2[t2.length - 1], List.getElem?_eq_getElem (by omega)⟩
  · intro i hi
    exact ⟨t2[i], List.getElem?_eq_getElem (by omega)⟩

/-- Witness for C10: `a = 35, b = 15, n = 10`. -/
theorem pipeline_in_bounds_witness :
    ((0 : Int) < 15 ∧ (15 : Int) < 35) ∧
    ∃ t, createLog [] 35 15 = some t ∧ t ≠ [] ∧ (∀ x ∈ t, 1 ≤ x.c) ∧
      (∃ last, t[t.length - 1]? = some last) ∧
      (∀ i : Nat, i + 2 ≤ t.length → ∃ prev, t[i]? = some prev) ∧
      (∃ st, solveDiophantine t 10 = some (st, printAnswer st 10)) :=
  ⟨by decide, pipeline_in_bounds 35 15 10 (by decide) (by decide)⟩

/-! ## The printed states of the back-substitution -/

theorem solveSteps_cons (x : GCDLog) (rest : List GCDLog) :
    ∀ (k : Nat) (s r : Coeffs) (l : List Coeffs), solveSteps rest k s = some l →
      solveLoop rest k s = some r →
      solveSteps (x :: rest) (k + 1) s = some (l ++ [substitute r x]) := by
  intro k
  induction k with
  | zero =>
    intro s r l hl hr
    simp only [solveSteps, Option.some.injEq] at hl
    simp only [solveLoop, Option.some.injEq] at hr
    subst hl; subst hr
    simp [solveSteps]
  | succ k ih =>
    intro s r l hl hr
    rw [solveSteps, List.getElem?_cons_succ]
    rw [solveSteps] at hl
    rw [solveLoop] at hr
    cases hk : rest[k]? with
    | none => rw [hk] at hl; simp at hl
    | some prev =>
      rw [hk] at hl hr
      simp only at hl hr
      cases hl1 : solveSteps rest k (substitute s prev) with
      | none => rw [hl1] at hl; simp at hl
      | some l1 =>
        rw [hl1] at hl
        simp only [Option.some.injEq] at hl
        subst hl
        simp only
        rw [ih (substitute s prev) r l1 hl1 hr]
        rfl

theorem solveStates_singleton (x : GCDLog) :
    solveStates [x] = some [{ a := 1, b := x.a, c := x.b, d := x.c }] := by
  simp [solveStates, solveSteps]

theorem solveStates_cons (x y : GCDLog) (rest : List GCDLog) (S : List Coeffs) (st : Coeffs)
    (hS : solveStates (y :: rest) = some S) (hst : solveState (y :: rest) = some st) :
    solveStates (x :: y :: rest) = some (S ++ [substitute st x]) := by
  have h1 : (x :: y :: rest).length - 1 = (y :: rest).length - 1 + 1 := by simp
  have h2 : (x :: y :: rest)[(y :: rest).length - 1 + 1]? = (y :: rest)[(y :: rest).length - 1]? :=
    List.getElem?_cons_succ
  unfold solveStates at hS ⊢
  unfold solveState at hst
  rw [h1, h2]
  cases hl : (y :: rest)[(y :: rest).length - 1]? with
  | none => rw [hl] at hS; simp at hS
  | some last =>
    rw [hl] at hS hst
    simp only [List.length_cons, Nat.add_one_ne_zero, if_false] at hS hst ⊢
    exact solveSteps_cons x (y :: rest) _ _ st S hS hst

/-! ## The invariant of the run, state by state -/

theorem stateOk_mono (a1 a2 r : Int) (j : Nat) (s : Coeffs) (x : GCDLog) (h12 : a1 ≤ a2)
    (h : StateOk a1 r j s x) : StateOk a2 r j s x := by
  obtain ⟨h1, h2, h3, h4, h5, h6, h7, h8, h9, h10, h11, h12a⟩ := h
  exact ⟨h1, h2, h3, h4, h5, h6, h7, h8, h9, Int.le_trans h10 h12, h11, h12a⟩

/-- The initialisation from the record of a call `createLog(a, b)` with `a > b > 0`. -/
theorem stateOk_init (a b : Int) (hb : 0 < b) (hab : b < a) :
    StateOk a (a.tmod b) 0 { a := 1, b := a, c := a.tdiv b, d := b }
      (make_gcdLog a (a.tdiv b) b (a.tmod b)) := by
  obtain ⟨hid, h0, hlt, hq⟩ := head_record a b hb hab
  have hqa : a.tdiv b ≤ a := by nlinarith
  refine ⟨?_, Int.le_refl 1, (by show (1 : Int) ≤ b; omega), hq, hqa, hid, h0, hlt, hab,
    Int.le_refl a, hq,
    Or.inl ⟨rfl, rfl, rfl⟩⟩
  show 1 * a - a.tdiv b * b = a.tmod b
  linarith

/-- One iteration on the record of the call `createLog(a, b)`, from the final state of
the run on the trace of `(b, a mod b)`: the branch taken and the state reached. -/
theorem stateOk_substitute (a b r : Int) (j : Nat) (st : Coeffs) (f : GCDLog)
    (hb : 0 < b) (hab : b < a) (hf : StateOk b r j st f) (hfa : f.a = b)
    (hfc : f.c = a.tmod b) :
    StateOk a r (j + 1) (substitute st (make_gcdLog a (a.tdiv b) b (a.tmod b)))
        (make_gcdLog a (a.tdiv b) b (a.tmod b)) ∧
      BranchOk j st (make_gcdLog a (a.tdiv b) b (a.tmod b)) := by
  obtain ⟨hid, h0, hlt, hq⟩ := head_record a b hb hab
  obtain ⟨hval, hA1, hAD, hC1, hCB, _, _, _, _, _, _, hbase⟩ := hf
  have hidx : (make_gcdLog a (a.tdiv b) b (a.tmod b)).a
      = (make_gcdLog a (a.tdiv b) b (a.tmod b)).b * (make_gcdLog a (a.tdiv b) b (a.tmod b)).c
        + (make_gcdLog a (a.tdiv b) b (a.tmod b)).d := hid
  rcases hbase with ⟨hpar, hsb, hsd⟩ | ⟨hpar, hsb, hsd⟩
  · rw [hfa] at hsb
    rw [hfc] at hsd
    have hne : (make_gcdLog a (a.tdiv b) b (a.tmod b)).d ≠ st.b := by
      show a.tmod b ≠ st.b
      omega
    obtain ⟨heq, hkeep⟩ := substitute_right st _ hidx hne hsb.symm hsd.symm
    rw [heq]
    have hCq : st.c * a.tdiv b ≤ b * a.tdiv b :=
      Int.mul_le_mul_of_nonneg_right (by omega) (by omega)
    have hCq0 : 0 ≤ st.c * a.tdiv b := Int.mul_nonneg (by omega) (by omega)
    refine ⟨⟨?_, ?_, ?_, hC1, ?_, hid, h0, hlt, hab, Int.le_refl a, hq,
      Or.inr ⟨by omega, hsb, rfl⟩⟩, Or.inl ⟨hpar, hne, hsd.symm, hsb.symm⟩⟩
    · rw [← hval]; exact hkeep
    · show 1 ≤ st.a + st.c * a.tdiv b
      omega
    · show st.a + st.c * a.tdiv b ≤ a
      nlinarith
    · show st.c ≤ st.b
      exact hCB
  · rw [hfc] at hsb
    rw [hfa] at hsd
    obtain ⟨heq, hkeep⟩ := substitute_left st _ hidx hsb.symm hsd.symm
    rw [heq]
    have hAq : st.a * a.tdiv b ≤ b * a.tdiv b :=
      Int.mul_le_mul_of_nonneg_right (by omega) (by omega)
    have hAq0 : 0 ≤ st.a * a.tdiv b := Int.mul_nonneg (by omega) (by omega)
    refine ⟨⟨?_, hA1, hAD, ?_, ?_, hid, h0, hlt, hab, Int.le_refl a, hq,
      Or.inl ⟨by omega, rfl, hsd⟩⟩, Or.inr ⟨hpar, hsb.symm, hsd.symm⟩⟩
    · rw [← hval]; exact hkeep
    · show 1 ≤ st.c + st.a * a.tdiv b
      omega
    · show st.c + st.a * a.tdiv b ≤ a
      nlinarith

/-- The invariant `RunInv` holds of the trace of `createLog(a, b)` for `a > b > 0`. -/
theorem run_invariant (a b : Int) (hb : 0 < b) (hab : b < a) :
    ∃ t, createLog [] a b = some t ∧ RunInv a b t := by
  refine createLog_induction RunInv ?_ ?_ a b hb hab
  · intro a b hb hab _
    refine ⟨_, _, _, _, solveStates_singleton _, solveState_singleton _, rfl, rfl, rfl, rfl,
      rfl, rfl, ?_, ?_⟩
    · intro j s x hs hx
      cases j with
      | zero =>
        simp only [List.getElem?_cons_zero, Option.some.injEq] at hs
        simp only [List.reverse_cons, List.reverse_nil, List.nil_append,
          List.getElem?_cons_zero, Option.some.injEq] at hx
        subst hs; subst hx
        exact stateOk_init a b hb hab
      | succ j => simp at hs
    · intro j s x _ hx
      simp at hx
  · intro a b rest hb hab _ hlt _ ih
    obtain ⟨S, st, first, last, hS, hst, hSlast, hlen, hhead, hfa, hfc, hlast, hA, hB⟩ := ih
    have hne : rest ≠ [] := by
      intro h; rw [h] at hlast; simp at hlast
    obtain ⟨y, rest1, hrest⟩ := List.exists_cons_of_ne_nil hne
    have hm : 0 < rest.length := List.length_pos.mpr hne
    have hSm : S[rest.length - 1]? = some st := by
      rw [← hlen, ← List.getLast?_eq_getElem?]; exact hSlast
    have hfm : rest.reverse[rest.length - 1]? = some first := by
      rw [List.getElem?_reverse (by omega)]
      have : rest.length - 1 - (rest.length - 1) = 0 := by omega
      rw [this, ← List.head?_eq_getElem?]; exact hhead
    have hstep := stateOk_substitute a b last.d (rest.length - 1) st first hb hab
      (hA _ st first hSm hfm) hfa hfc
    have hjm : rest.length - 1 + 1 = rest.length := by omega
    rw [hjm] at hstep
    obtain ⟨hnew, hbranch⟩ := hstep
    have hrev : (make_gcdLog a (a.tdiv b) b (a.tmod b) :: rest).reverse
        = rest.reverse ++ [make_gcdLog a (a.tdiv b) b (a.tmod b)] := List.reverse_cons _ _
    have hrl : rest.reverse.length = rest.length := List.length_reverse rest
    refine ⟨S ++ [substitute st (make_gcdLog a (a.tdiv b) b (a.tmod b))],
      substitute st (make_gcdLog a (a.tdiv b) b (a.tmod b)),
      make_gcdLog a (a.tdiv b) b (a.tmod b), last, ?_, ?_, List.getLast?_concat S, ?_,
      rfl, rfl, rfl, ?_, ?_, ?_⟩
    · rw [hrest]
      rw [hrest] at hS hst
      exact solveStates_cons _ y rest1 S st hS hst
    · rw [hrest, solveState_cons, ← hrest, hst]; rfl
    · simp [hlen]
    · rw [hrest, List.getLast?_cons_cons, ← hrest]; exact hlast
    · intro j s x hs hx
      rw [hrev] at hx
      rcases Nat.lt_trichotomy j rest.length with hj | hj | hj
      · rw [List.getElem?_append_left (by omega)] at hs hx
        exact stateOk_mono b a last.d j s x (by omega) (hA j s x hs hx)
      · subst hj
        have h1 := List.getElem?_concat_length S
          (substitute st (make_gcdLog a (a.tdiv b) b (a.tmod b)))
        have h2 := List.getElem?_concat_length rest.reverse
          (make_gcdLog a (a.tdiv b) b (a.tmod b))
        rw [hlen] at h1
        rw [hrl] at h2
        rw [h1] at hs
        rw [h2] at hx
        simp only [Option.some.injEq] at hs hx
        subst hs; subst hx
        exact hnew
      · rw [List.getElem?_eq_none (by simp [hlen]; omega)] at hs
        simp at hs
    · intro j s x hs hx
      rw [hrev] at hx
      rcases Nat.lt_trichotomy (j + 1) rest.length with hj | hj | hj
      · rw [List.getElem?_append_left (by omega)] at hs hx
        obtain ⟨hnext, hbr⟩ := hB j s x hs hx
        refine ⟨?_, hbr⟩
        rw [List.getElem?_append_left (by omega)]
        exact hnext
      · have hjj : j = rest.length - 1 := by omega
        subst hjj
        have h1 := List.getElem?_concat_length S
          (substitute st (make_gcdLog a (a.tdiv b) b (a.tmod b)))
        have h2 := List.getElem?_concat_length rest.reverse
          (make_gcdLog a (a.tdiv b) b (a.tmod b))
        rw [hlen] at h1
        rw [hrl] at h2
        rw [hj] at hx ⊢
        rw [h2] at hx
        rw [List.getElem?_append_left (by omega), hSm] at hs
        simp only [Option.some.injEq] at hs hx
        subst hs; subst hx
        exact ⟨h1, hbranch⟩
      · rw [List.getElem?_eq_none (by simp; omega)] at hx
        simp at hx

/-- The run on the trace of `createLog(a, b)`, `a > b > 0`, read by source index: every
printed state keeps the value of `a(b) - c(d)` and the bounds, every quotient is between
`1` and `a`, and the iteration on `gcdLog[i]` starts from the printed state number
`size - 2 - i` and reaches the next printed state by the branch `BranchOk` names. -/
theorem run_steps (a b : Int) (hb : 0 < b) (hab : b < a) :
    ∃ (t : List GCDLog) (S : List Coeffs) (last : GCDLog), createLog [] a b = some t ∧
      solveStates t = some S ∧ S.length = t.length ∧ solveState t = S.getLast? ∧
      t.getLast? = some last ∧
      (∀ s ∈ S, s.a * s.b - s.c * s.d = last.d ∧ 1 ≤ s.a ∧ s.a ≤ s.d ∧ s.d ≤ a ∧
        1 ≤ s.c ∧ s.c ≤ s.b ∧ s.b ≤ a) ∧
      (∀ prev ∈ t, 1 ≤ prev.b ∧ prev.b ≤ a) ∧
      (∀ (i : Nat) (s : Coeffs) (prev : GCDLog), i + 2 ≤ t.length →
        S[t.length - 2 - i]? = some s → t[i]? = some prev →
        S[t.length - 1 - i]? = some (substitute s prev) ∧
          BranchOk (t.length - 2 - i) s prev) := by
  obtain ⟨t, ht, S, st, first, last, hS, hst, hSlast, hlen, _, _, _, hlast, hA, hB⟩ :=
    run_invariant a b hb hab
  have hrl : t.reverse.length = t.length := List.length_reverse t
  refine ⟨t, S, last, ht, hS, hlen, by rw [hst, hSlast], hlast, ?_, ?_, ?_⟩
  · intro s hs
    obtain ⟨j, hj⟩ := List.mem_iff_getElem?.mp hs
    have hjlt : j < S.length := by
      by_contra hge
      rw [List.getElem?_eq_none (by omega)] at hj
      simp at hj
    have hx : t.reverse[j]? = some (t.reverse[j]) := List.getElem?_eq_getElem (by omega)
    obtain ⟨h1, h2, h3, h4, h5, _, _, _, h9, h10, _, hbase⟩ := hA j s _ hj hx
    rcases hbase with ⟨_, hsb, hsd⟩ | ⟨_, hsb, hsd⟩
    · exact ⟨h1, h2, h3, by omega, h4, h5, by omega⟩
    · exact ⟨h1, h2, h3, by omega, h4, h5, by omega⟩
  · intro prev hprev
    obtain ⟨j, hj⟩ := List.mem_iff_getElem?.mp (List.mem_reverse.mpr hprev)
    have hjlt : j < t.reverse.length := by
      by_contra hge
      rw [List.getElem?_eq_none (by omega)] at hj
      simp at hj
    have hs : S[j]? = some (S[j]) := List.getElem?_eq_getElem (by omega)
    obtain ⟨_, _, _, _, _, h6, h7, h8, _, h10, h11, _⟩ := hA j _ prev hs hj
    refine ⟨h11, ?_⟩
    nlinarith
  · intro i s prev hi hs hprev
    have hx : t.reverse[t.length - 2 - i + 1]? = some prev := by
      rw [List.getElem?_reverse (by omega)]
      have : t.length - 1 - (t.length - 2 - i + 1) = i := by omega
      rw [this]; exact hprev
    obtain ⟨hnext, hbr⟩ := hB _ s prev hs hx
    have : t.length - 2 - i + 1 = t.length - 1 - i := by omega
    rw [this] at hnext
    exact ⟨hnext, hbr⟩

/-! ## The run over 32-bit `int` -/

theorem int32_of_bounds (x : Int) (h0 : 0 ≤ x) (h1 : x ≤ 2147483647) : int32 x = some x := by
  unfold int32
  rw [if_pos ⟨by omega, h1⟩]

/-- With `a`, `c` and the quotient below `1000` no product or sum of an iteration leaves
the range of `int`. -/
theorem substitute32_eq (s : Coeffs) (prev : GCDLog) (ha : 0 ≤ s.a ∧ s.a < 1000)
    (hc : 0 ≤ s.c ∧ s.c < 1000) (hq : 0 ≤ prev.b ∧ prev.b < 1000) :
    substitute32 s prev = some (substitute s prev) := by
  have h1 : 0 ≤ s.a * prev.b := Int.mul_nonneg ha.1 hq.1
  have h2 : s.a * prev.b ≤ 1000 * 1000 := by nlinarith
  have h3 : 0 ≤ s.c * prev.b := Int.mul_nonneg hc.1 hq.1
  have h4 : s.c * prev.b ≤ 1000 * 1000 := by nlinarith
  unfold substitute32 substitute
  by_cases h : prev.d = s.b
  · rw [if_pos h, if_pos h, int32_of_bounds _ h1 (by omega)]
    simp only
    rw [int32_of_bounds _ (by omega) (by omega)]
  · rw [if_neg h, if_neg h, int32_of_bounds _ h3 (by omega)]
    simp only
    rw [int32_of_bounds _ (by omega) (by omega)]

theorem solveLoop32_eq (t : List GCDLog) (hq : ∀ prev ∈ t, 0 ≤ prev.b ∧ prev.b < 1000) :
    ∀ (k : Nat) (s : Coeffs) (S : List Coeffs), solveSteps t k s = some S →
      (∀ x ∈ S, (0 ≤ x.a ∧ x.a < 1000) ∧ (0 ≤ x.c ∧ x.c < 1000)) →
      solveLoop32 t k s = solveLoop t k s := by
  intro k
  induction k with
  | zero => intro s S _ _; rfl
  | succ k ih =>
    intro s S hS hbd
    rw [solveSteps] at hS
    rw [solveLoop32, solveLoop]
    cases hk : t[k]? with
    | none => rfl
    | some prev =>
      rw [hk] at hS
      simp only at hS ⊢
      cases hl : solveSteps t k (substitute s prev) with
      | none => rw [hl] at hS; simp at hS
      | some l =>
        rw [hl] at hS
        simp only [Option.some.injEq] at hS
        subst hS
        have hs := hbd s (List.mem_cons_self _ _)
        rw [substitute32_eq s prev hs.1 hs.2 (hq prev (List.getElem?_mem hk))]
        simp only
        exact ih (substitute s prev) l hl (fun x hx => hbd x (List.mem_cons_of_mem _ hx))

theorem solveState32_eq (t : List GCDLog) (S : List Coeffs) (hS : solveStates t = some S)
    (hq : ∀ prev ∈ t, 0 ≤ prev.b ∧ prev.b < 1000)
    (hbd : ∀ x ∈ S, (0 ≤ x.a ∧ x.a < 1000) ∧ (0 ≤ x.c ∧ x.c < 1000)) :
    solveState32 t = solveState t := by
  unfold solveStates at hS
  unfold solveState32 solveState
  by_cases h0 : t.length = 0
  · rw [if_pos h0, if_pos h0]
  · rw [if_neg h0] at hS
    rw [if_neg h0, if_neg h0]
    cases hl : t[t.length - 1]? with
    | none => rfl
    | some last =>
      rw [hl] at hS
      exact solveLoop32_eq t hq _ _ S hS hbd

theorem printAnswer32_eq (s : Coeffs) (n : Int) (ha : 0 ≤ s.a ∧ s.a < 1000)
    (hc : 0 ≤ s.c ∧ s.c < 1000) (hn : 0 ≤ n ∧ n < 1000) :
    printAnswer32 s n = some (printAnswer s n) := by
  have h1 : 0 ≤ s.a * n := Int.mul_nonneg ha.1 hn.1
  have h2 : s.a * n ≤ 1000 * 1000 := by nlinarith
  have h3 : 0 ≤ s.c * n := Int.mul_nonneg hc.1 hn.1
  have h4 : s.c * n ≤ 1000 * 1000 := by nlinarith
  unfold printAnswer32 printAnswer
  by_cases h : n ≠ 1
  · rw [if_pos h, if_pos h, int32_of_bounds _ h1 (by omega)]
    simp only
    rw [int32_of_bounds _ h3 (by omega)]
  · rw [if_neg h, if_neg h]

/-! ## The run over 32-bit `int` on inputs of any size that fits -/

theorem solveSteps_head (t : List GCDLog) (k : Nat) (s : Coeffs) (l : List Coeffs)
    (h : solveSteps t k s = some l) : ∃ rest, l = s :: rest := by
  cases k with
  | zero =>
    simp only [solveSteps, Option.some.injEq] at h
    exact ⟨[], h.symm⟩
  | succ k =>
    rw [solveSteps] at h
    cases hk : t[k]? with
    | none => rw [hk] at h; simp at h
    | some prev =>
      rw [hk] at h
      simp only at h
      cases hl : solveSteps t k (substitute s prev) with
      | none => rw [hl] at h; simp at h
      | some l1 =>
        rw [hl] at h
        simp only [Option.some.injEq] at h
        exact ⟨l1, h.symm⟩

/-- An iteration whose state is positive, whose quotient is not negative and whose next
state stays at or below a bound `m` that fits in `int` does not overflow. -/
theorem substitute32_eq_of_next (s : Coeffs) (prev : GCDLog) (m : Int)
    (hm : m ≤ 2147483647) (ha : 1 ≤ s.a) (hc : 1 ≤ s.c) (hq : 0 ≤ prev.b)
    (hna : (substitute s prev).a ≤ m) (hnc : (substitute s prev).c ≤ m) :
    substitute32 s prev = some (substitute s prev) := by
  have h1 : 0 ≤ s.a * prev.b := Int.mul_nonneg (by omega) hq
  have h3 : 0 ≤ s.c * prev.b := Int.mul_nonneg (by omega) hq
  unfold substitute at hna hnc
  unfold substitute32 substitute
  by_cases h : prev.d = s.b
  · rw [if_pos h] at hna hnc
    have hnc1 : s.c + s.a * prev.b ≤ m := hnc
    rw [if_pos h, if_pos h, int32_of_bounds _ h1 (by omega)]
    simp only
    rw [int32_of_bounds _ (by omega) (by omega)]
  · rw [if_neg h] at hna hnc
    have hna1 : s.a + s.c * prev.b ≤ m := hna
    rw [if_neg h, if_neg h, int32_of_bounds _ h3 (by omega)]
    simp only
    rw [int32_of_bounds _ (by omega) (by omega)]

theorem solveLoop32_eq_of_states (t : List GCDLog) (m : Int) (hm : m ≤ 2147483647)
    (hq : ∀ prev ∈ t, 0 ≤ prev.b) :
    ∀ (k : Nat) (s : Coeffs) (S : List Coeffs), solveSteps t k s = some S →
      (∀ x ∈ S, 1 ≤ x.a ∧ x.a ≤ m ∧ 1 ≤ x.c ∧ x.c ≤ m) →
      solveLoop32 t k s = solveLoop t k s := by
  intro k
  induction k with
  | zero => intro s S _ _; rfl
  | succ k ih =>
    intro s S hS hbd
    rw [solveSteps] at hS
    rw [solveLoop32, solveLoop]
    cases hk : t[k]? with
    | none => rfl
    | some prev =>
      rw [hk] at hS
      simp only at hS ⊢
      cases hl : solveSteps t k (substitute s prev) with
      | none => rw [hl] at hS; simp at hS
      | some l =>
        rw [hl] at hS
        simp only [Option.some.injEq] at hS
        subst hS
        obtain ⟨rest, hrest⟩ := solveSteps_head t k _ l hl
        have hs := hbd s (List.mem_cons_self _ _)
        have hnext := hbd (substitute s prev)
          (List.mem_cons_of_mem _ (by rw [hrest]; exact List.mem_cons_self _ _))
        rw [substitute32_eq_of_next s prev m hm hs.1 hs.2.2.1 (hq prev (List.getElem?_mem hk))
          hnext.2.1 hnext.2.2.2]
        simp only
        exact ih (substitute s prev) l hl (fun x hx => hbd x (List.mem_cons_of_mem _ hx))

theorem solveState32_eq_of_states (t : List GCDLog) (S : List Coeffs) (m : Int)
    (hm : m ≤ 2147483647) (hS : solveStates t = some S) (hq : ∀ prev ∈ t, 0 ≤ prev.b)
    (hbd : ∀ x ∈ S, 1 ≤ x.a ∧ x.a ≤ m ∧ 1 ≤ x.c ∧ x.c ≤ m) :
    solveState32 t = solveState t := by
  unfold solveStates at hS
  unfold solveState32 solveState
  by_cases h0 : t.length = 0
  · rw [if_pos h0, if_pos h0]
  · rw [if_neg h0] at hS
    rw [if_neg h0, if_neg h0]
    cases hl : t[t.length - 1]? with
    | none => rfl
    | some last =>
      rw [hl] at hS
      exact solveLoop32_eq_of_states t m hm hq _ _ S hS hbd

theorem printAnswer32_eq_of_bounds (s : Coeffs) (n : Int) (ha : 0 ≤ s.a) (hc : 0 ≤ s.c)
    (hn : 0 ≤ n) (han : s.a * n ≤ 2147483647) (hcn : s.c * n ≤ 2147483647) :
    printAnswer32 s n = some (printAnswer s n) := by
  have h1 : 0 ≤ s.a * n := Int.mul_nonneg ha hn
  have h3 : 0 ≤ s.c * n := Int.mul_nonneg hc hn
  unfold printAnswer32 printAnswer
  by_cases h : n ≠ 1
  · rw [if_pos h, if_pos h, int32_of_bounds _ h1 han]
    simp only
    rw [int32_of_bounds _ h3 hcn]
  · rw [if_neg h, if_neg h]

/-- For `a > b > 0` with `a` an `int`, the loop of `solveDiophantine` over 32-bit `int`
on the trace of `createLog(a, b)` does not overflow: it ends in the state the exact run
ends in, and that state has `1 <= a <= d`, `1 <= c <= b` and both bases at most the
input `a`. -/
theorem run32_state (a b : Int) (hb : 0 < b) (hab : b < a) (ha : a ≤ 2147483647) :
    ∃ (t : List GCDLog) (st : Coeffs), createLog [] a b = some t ∧
      solveState t = some st ∧ solveState32 t = some st ∧
      1 ≤ st.a ∧ st.a ≤ a ∧ 1 ≤ st.c ∧ st.c ≤ a := by
  obtain ⟨t, S, last, ht, hS, hlen, hfin, hlast, hstates, hquot, _⟩ := run_steps a b hb hab
  have hq : ∀ prev ∈ t, 0 ≤ prev.b := by
    intro prev hp
    have := hquot prev hp
    omega
  have hbd : ∀ x ∈ S, 1 ≤ x.a ∧ x.a ≤ a ∧ 1 ≤ x.c ∧ x.c ≤ a := by
    intro x hx
    obtain ⟨_, h1, h2, h3, h4, h5, h6⟩ := hstates x hx
    exact ⟨h1, by omega, h4, by omega⟩
  have hne : t ≠ [] := by
    intro h; rw [h] at hlast; simp at hlast
  obtain ⟨st, hst⟩ := solveState_isSome t hne
  have hmem : st ∈ S := by
    rw [hst] at hfin
    exact List.mem_of_getLast?_eq_some hfin.symm
  obtain ⟨h1, h2, h3, h4⟩ := hbd st hmem
  refine ⟨t, st, ht, hst, ?_, h1, h2, h3, h4⟩
  rw [solveState32_eq_of_states t S a ha hS hq hbd, hst]

/-! ## The run over 32-bit `int` on an arbitrary trace with bounded quotients -/

theorem int32_of_abs (x : Int) (h : |x| ≤ 2147483647) : int32 x = some x := by
  have h2 := abs_le.mp h
  unfold int32
  rw [if_pos ⟨by omega, h2.2⟩]

/-- One iteration on a state with `|a|, |c| <= B` and a record with `|quotient| <= Q`:
when `B * (1 + Q)` fits in `int` nothing overflows and the next state has
`|a|, |c| <= B * (1 + Q)`. -/
theorem substitute32_eq_of_abs (s : Coeffs) (prev : GCDLog) (B Q : Int) (hB : 0 ≤ B)
    (hQ : 0 ≤ Q) (ha : |s.a| ≤ B) (hc : |s.c| ≤ B) (hq : |prev.b| ≤ Q)
    (hfit : B * (1 + Q) ≤ 2147483647) :
    substitute32 s prev = some (substitute s prev) ∧
      |(substitute s prev).a| ≤ B * (1 + Q) ∧ |(substitute s prev).c| ≤ B * (1 + Q) := by
  have hBQ : B * (1 + Q) = B + B * Q := by ring
  have hBQ0 : 0 ≤ B * Q := Int.mul_nonneg hB hQ
  have h1 : |s.a * prev.b| ≤ B * Q := by
    rw [abs_mul]
    exact mul_le_mul ha hq (abs_nonneg _) hB
  have h2 : |s.c * prev.b| ≤ B * Q := by
    rw [abs_mul]
    exact mul_le_mul hc hq (abs_nonneg _) hB
  have h3 : |s.c + s.a * prev.b| ≤ B + B * Q :=
    le_trans (abs_add _ _) (add_le_add hc h1)
  have h4 : |s.a + s.c * prev.b| ≤ B + B * Q :=
    le_trans (abs_add _ _) (add_le_add ha h2)
  unfold substitute32 substitute
  by_cases h : prev.d = s.b
  · rw [if_pos h, if_pos h, int32_of_abs _ (by omega)]
    simp only
    rw [int32_of_abs _ (by omega)]
    exact ⟨rfl, by show |s.a| ≤ _; omega, by show |s.c + s.a * prev.b| ≤ _; omega⟩
  · rw [if_neg h, if_neg h, int32_of_abs _ (by omega)]
    simp only
    rw [int32_of_abs _ (by omega)]
    exact ⟨rfl, by show |s.a + s.c * prev.b| ≤ _; omega, by show |s.c| ≤ _; omega⟩

theorem solveLoop32_eq_of_abs (t : List GCDLog) (Q : Int) (hQ : 0 ≤ Q)
    (hq : ∀ x ∈ t, |x.b| ≤ Q) :
    ∀ (k : Nat) (s : Coeffs) (B : Int), 0 ≤ B → |s.a| ≤ B → |s.c| ≤ B →
      B * (1 + Q) ^ k ≤ 2147483647 → k ≤ t.length →
      ∃ r, solveLoop32 t k s = some r ∧ solveLoop t k s = some r ∧
        |r.a| ≤ B * (1 + Q) ^ k ∧ |r.c| ≤ B * (1 + Q) ^ k := by
  intro k
  induction k with
  | zero =>
    intro s B _ ha hc _ _
    exact ⟨s, rfl, rfl, by simpa using ha, by simpa using hc⟩
  | succ k ih =>
    intro s B hB ha hc hfit hk
    have hprev : t[k]? = some (t[k]) := List.getElem?_eq_getElem (by omega)
    have hpow : (1 : Int) ≤ (1 + Q) ^ k := one_le_pow₀ (by omega)
    have hsucc : B * (1 + Q) ^ (k + 1) = B * (1 + Q) * (1 + Q) ^ k := by ring
    have hstep : B * (1 + Q) ≤ B * (1 + Q) * (1 + Q) ^ k :=
      le_mul_of_one_le_right (Int.mul_nonneg hB (by omega)) hpow
    obtain ⟨h32, hna, hnc⟩ := substitute32_eq_of_abs s (t[k]) B Q hB hQ ha hc
      (hq _ (List.getElem?_mem hprev)) (by rw [hsucc] at hfit; omega)
    obtain ⟨r, hr32, hr, hra, hrc⟩ := ih (substitute s (t[k])) (B * (1 + Q))
      (Int.mul_nonneg hB (by omega)) hna hnc (by rw [← hsucc]; exact hfit) (by omega)
    refine ⟨r, ?_, ?_, by rw [hsucc]; exact hra, by rw [hsucc]; exact hrc⟩
    · rw [solveLoop32, hprev]
      simp only
      rw [h32]
      exact hr32
    · rw [solveLoop, hprev]
      exact hr

/-- On a non-empty trace whose quotients have absolute value at most `Q`, with
`(1 + Q) ^ size` fitting in `int`, the loop over 32-bit `int` does not overflow and ends
in the state of the exact run. -/
theorem solveState32_eq_of_abs (t : List GCDLog) (Q : Int) (ht : t ≠ [])
    (hq : ∀ x ∈ t, |x.b| ≤ Q) (hfit : (1 + Q) ^ t.length ≤ 2147483647) :
    ∃ st, solveState32 t = some st ∧ solveState t = some st ∧
      |st.a| ≤ (1 + Q) ^ t.length ∧ |st.c| ≤ (1 + Q) ^ t.length := by
  have hlen : 0 < t.length := List.length_pos.mpr ht
  have hlast : t[t.length - 1]? = some (t[t.length - 1]) :=
    List.getElem?_eq_getElem (by omega)
  have hQ : 0 ≤ Q := le_trans (abs_nonneg _) (hq _ (List.getElem?_mem hlast))
  have hpow : (1 + Q) ^ t.length = (1 + Q) * (1 + Q) ^ (t.length - 1) := by
    rw [← pow_succ']
    congr 1
    omega
  have hc0 : |(t[t.length - 1]).b| ≤ 1 + Q := by
    have := hq _ (List.getElem?_mem hlast)
    omega
  obtain ⟨r, hr32, hr, hra, hrc⟩ := solveLoop32_eq_of_abs t Q hQ hq (t.length - 1)
    { a := 1, b := (t[t.length - 1]).a, c := (t[t.length - 1]).b, d := (t[t.length - 1]).c }
    (1 + Q) (by omega) (by show |(1 : Int)| ≤ 1 + Q; simp; omega) hc0
    (by rw [← hpow]; exact hfit) (by omega)
  refine ⟨r, ?_, ?_, by rw [hpow]; exact hra, by rw [hpow]; exact hrc⟩
  · unfold solveState32
    rw [if_neg (by omega), hlast]
    exact hr32
  · unfold solveState
    rw [if_neg (by omega), hlast]
    exact hr

theorem printAnswer32_eq_of_abs (s : Coeffs) (n : Int) (han : |s.a * n| ≤ 2147483647)
    (hcn : |s.c * n| ≤ 2147483647) : printAnswer32 s n = some (printAnswer s n) := by
  unfold printAnswer32 printAnswer
  by_cases h : n ≠ 1
  · rw [if_pos h, if_pos h, int32_of_abs _ han]
    simp only
    rw [int32_of_abs _ hcn]
  · rw [if_neg h, if_neg h]

/-! ## The properties of the specification, continued -/

/-- Claim C11 as stated fails: the trace `35 = 2(15) + 5`, `7 = 1(5) + 2` is not a
Euclidean chain (the divisor `15` is not the next dividend `7`), and `solveDiophantine`
returns the state `(3, 7, 1, 35)` on it and prints `7(9) - 35(3) = 3`, with no overflow
in 32-bit `int`. -/
theorem solveDiophantine_returns_on_broken_chain :
    ¬ IsChain [⟨35, 2, 15, 5⟩, ⟨7, 1, 5, 2⟩] ∧
    solveDiophantine [⟨35, 2, 15, 5⟩, ⟨7, 1, 5, 2⟩] 3
      = some (⟨3, 7, 1, 35⟩, ⟨7, 9, 35, 3, 3⟩) ∧
    solveDiophantine32 [⟨35, 2, 15, 5⟩, ⟨7, 1, 5, 2⟩] 3
      = some (⟨3, 7, 1, 35⟩, ⟨7, 9, 35, 3, 3⟩) ∧
    ¬ (∀ (t : List GCDLog) (n : Int), (t = [] ∨ ¬ IsChain t) → solveDiophantine t n = none) ∧
    ¬ (∀ (t : List GCDLog) (n : Int), (t = [] ∨ ¬ IsChain t) →
        solveDiophantine32 t n = none) := by
  have hchain : ¬ IsChain [⟨35, 2, 15, 5⟩, ⟨7, 1, 5, 2⟩] := by
    intro h
    have h1 := (h 0 ⟨35, 2, 15, 5⟩ ⟨7, 1, 5, 2⟩ rfl rfl).1
    exact absurd h1 (by decide)
  refine ⟨hchain, by decide, by decide, ?_, ?_⟩
  · intro h
    have h1 := h [⟨35, 2, 15, 5⟩, ⟨7, 1, 5, 2⟩] 3 (Or.inr hchain)
    exact absurd h1 (by decide)
  · intro h
    have h1 := h [⟨35, 2, 15, 5⟩, ⟨7, 1, 5, 2⟩] 3 (Or.inr hchain)
    exact absurd h1 (by decide)

/-- Claim C11, amended: `solveDiophantine` checks no precondition. On every non-empty
trace, a valid Euclidean chain or not, whose quotients have absolute value at most `Q`
with `(1 + Q) ^ size` and `(1 + Q) ^ size * |n|` fitting in `int` (so that no sum or
product overflows), it returns a state `(a, b, c, d)`, the one computed from the last
record and one substitution per earlier record, and prints an answer line. On the empty
trace it produces no coefficients: its first access `gcdLog[size - 1]` is out of
bounds. -/
theorem solveDiophantine_unchecked (t : List GCDLog) (n Q : Int) (ht : t ≠ [])
    (hq : ∀ x ∈ t, |x.b| ≤ Q) (hfit : (1 + Q) ^ t.length ≤ 2147483647)
    (hfitn : (1 + Q) ^ t.length * |n| ≤ 2147483647) :
    solveDiophantine32 [] n = none ∧
      ∃ st, solveState t = some st ∧
        solveDiophantine32 t n = some (st, printAnswer st n) ∧
        solveDiophantine t n = some (st, printAnswer st n) := by
  obtain ⟨st, hst32, hst, hsa, hsc⟩ := solveState32_eq_of_abs t Q ht hq hfit
  have han : |st.a * n| ≤ 2147483647 := by
    rw [abs_mul]
    exact le_trans (mul_le_mul_of_nonneg_right hsa (abs_nonneg n)) hfitn
  have hcn : |st.c * n| ≤ 2147483647 := by
    rw [abs_mul]
    exact le_trans (mul_le_mul_of_nonneg_right hsc (abs_nonneg n)) hfitn
  refine ⟨rfl, st, hst, ?_, solveDiophantine_eq t n st hst⟩
  unfold solveDiophantine32
  rw [hst32]
  simp only
  rw [printAnswer32_eq_of_abs st n han hcn]

/-- Witness for C11 as amended: the trace `35 = 2(15) + 5`, `7 = 1(5) + 2`, which is not
a chain, with `n = 3` and `Q = 2`. -/
theorem solveDiophantine_unchecked_witness :
    (([⟨35, 2, 15, 5⟩, ⟨7, 1, 5, 2⟩] : List GCDLog) ≠ [] ∧
      (∀ x ∈ ([⟨35, 2, 15, 5⟩, ⟨7, 1, 5, 2⟩] : List GCDLog), |x.b| ≤ 2) ∧
      ((1 : Int) + 2) ^ ([⟨35, 2, 15, 5⟩, ⟨7, 1, 5, 2⟩] : List GCDLog).length ≤ 2147483647 ∧
      ((1 : Int) + 2) ^ ([⟨35, 2, 15, 5⟩, ⟨7, 1, 5, 2⟩] : List GCDLog).length * |(3 : Int)|
        ≤ 2147483647) ∧
    solveDiophantine32 [] 3 = none ∧
    ∃ st, solveState [⟨35, 2, 15, 5⟩, ⟨7, 1, 5, 2⟩] = some st ∧
      solveDiophantine32 [⟨35, 2, 15, 5⟩, ⟨7, 1, 5, 2⟩] 3 = some (st, printAnswer st 3) ∧
      solveDiophantine [⟨35, 2, 15, 5⟩, ⟨7, 1, 5, 2⟩] 3 = some (st, printAnswer st 3) :=
  ⟨⟨by decide, by decide, by decide, by decide⟩,
    solveDiophantine_unchecked [⟨35, 2, 15, 5⟩, ⟨7, 1, 5, 2⟩] 3 2 (by decide) (by decide)
      (by decide) (by decide)⟩

/-- Claim C12: for `a > b > 0`, on the trace of `createLog(a, b)` every iteration of the
loop of `solveDiophantine`, the one on `gcdLog[i]` for each `i` from `size - 2` down to
`0`, goes from a printed state `s` to the next printed state by the left or the right
substitution, and the value of `a(b) - c(d)` after it equals the value before; if
`1 = a(b) - c(d)` holds before, it holds after. -/
theorem iteration_preserves (a b : Int) (hb : 0 < b) (hab : b < a) :
    ∃ (t : List GCDLog) (S : List Coeffs), createLog [] a b = some t ∧
      solveStates t = some S ∧
      ∀ i : Nat, i + 2 ≤ t.length → ∃ (s : Coeffs) (prev : GCDLog),
        S[t.length - 2 - i]? = some s ∧ t[i]? = some prev ∧
        S[t.length - 1 - i]? = some (substitute s prev) ∧
        (substitute s prev
            = { a := s.a, b := prev.a, c := s.c + s.a * prev.b, d := s.d } ∨
          substitute s prev
            = { a := s.a + s.c * prev.b, b := s.b, c := s.c, d := prev.a }) ∧
        (substitute s prev).a * (substitute s prev).b
            - (substitute s prev).c * (substitute s prev).d
          = s.a * s.b - s.c * s.d ∧
        (1 = s.a * s.b - s.c * s.d →
          1 = (substitute s prev).a * (substitute s prev).b
            - (substitute s prev).c * (substitute s prev).d) := by
  obtain ⟨t, S, last, ht, hS, hlen, _, _, hstates, _, hiter⟩ := run_steps a b hb hab
  refine ⟨t, S, ht, hS, ?_⟩
  intro i hi
  have hs : S[t.length - 2 - i]? = some (S[t.length - 2 - i]) :=
    List.getElem?_eq_getElem (by omega)
  have hp : t[i]? = some (t[i]) := List.getElem?_eq_getElem (by omega)
  obtain ⟨hnext, _⟩ := hiter i _ _ hi hs hp
  have hv1 := (hstates _ (List.getElem?_mem hs)).1
  have hv2 := (hstates _ (List.getElem?_mem hnext)).1
  refine ⟨_, _, hs, hp, hnext, ?_, by rw [hv2, hv1], fun h1 => by rw [hv2, ← hv1]; exact h1⟩
  unfold substitute
  by_cases h : (t[i]).d = (S[t.length - 2 - i]).b
  · rw [if_pos h]; exact Or.inl rfl
  · rw [if_neg h]; exact Or.inr rfl

/-- Witness for C12: `a = 7, b = 5`, where the one iteration goes from `(1, 5, 2, 2)` to
`(3, 5, 2, 7)`. -/
theorem iteration_preserves_witness :
    ((0 : Int) < 5 ∧ (5 : Int) < 7) ∧
    solveStates [⟨7, 1, 5, 2⟩, ⟨5, 2, 2, 1⟩] = some [⟨1, 5, 2, 2⟩, ⟨3, 5, 2, 7⟩] ∧
    ∃ (t : List GCDLog) (S : List Coeffs), createLog [] 7 5 = some t ∧
      solveStates t = some S ∧
      ∀ i : Nat, i + 2 ≤ t.length → ∃ (s : Coeffs) (prev : GCDLog),
        S[t.length - 2 - i]? = some s ∧ t[i]? = some prev ∧
        S[t.length - 1 - i]? = some (substitute s prev) ∧
        (substitute s prev
            = { a := s.a, b := prev.a, c := s.c + s.a * prev.b, d := s.d } ∨
          substitute s prev
            = { a := s.a + s.c * prev.b, b := s.b, c := s.c, d := prev.a }) ∧
        (substitute s prev).a * (substitute s prev).b
            - (substitute s prev).c * (substitute s prev).d
          = s.a * s.b - s.c * s.d ∧
        (1 = s.a * s.b - s.c * s.d →
          1 = (substitute s prev).a * (substitute s prev).b
            - (substitute s prev).c * (substitute s prev).d) :=
  ⟨by decide, by decide, iteration_preserves 7 5 (by decide) (by decide)⟩

/-- Claim C14: for `a > b > 0` the last record of the trace of `createLog(a, b)` has
remainder `0` if and only if `gcd(a, b) > 1` or `b = 1`, and remainder `1` if and only if
`gcd(a, b) = 1` and `b >= 2`. -/
theorem last_remainder_iff (a b : Int) (hb : 0 < b) (hab : b < a) :
    ∃ (t : List GCDLog) (last : GCDLog), createLog [] a b = some t ∧
      t.getLast? = some last ∧
      (last.d = 0 ↔ (1 < Int.gcd a b ∨ b = 1)) ∧
      (last.d = 1 ↔ (Int.gcd a b = 1 ∧ 2 ≤ b)) := by
  obtain ⟨t, ht, last, hlast, h01, hiff⟩ := trace_last_remainder a b hb hab
  have hg : 0 < Int.gcd a b := Int.gcd_pos_of_ne_zero_right a (by omega)
  refine ⟨t, last, ht, hlast, ?_, hiff⟩
  constructor
  · intro h0
    by_cases hg1 : Int.gcd a b = 1
    · right
      by_contra hb1
      have := hiff.mpr ⟨hg1, by omega⟩
      omega
    · left; omega
  · intro h
    rcases h01 with h0 | h1
    · exact h0
    · obtain ⟨hg1, hb2⟩ := hiff.mp h1
      rcases h with h | h <;> omega

/-- Witness for C14: `a = 35, b = 15`. -/
theorem last_remainder_iff_witness :
    ((0 : Int) < 15 ∧ (15 : Int) < 35) ∧
    ∃ (t : List GCDLog) (last : GCDLog), createLog [] 35 15 = some t ∧
      t.getLast? = some last ∧
      (last.d = 0 ↔ (1 < Int.gcd 35 15 ∨ (15 : Int) = 1)) ∧
      (last.d = 1 ↔ (Int.gcd 35 15 = 1 ∧ (2 : Int) ≤ 15)) :=
  ⟨by decide, last_remainder_iff 35 15 (by decide) (by decide)⟩

/-- Claim C15: for `a > b > 0`, after `solveDiophantine` has processed the whole trace of
`createLog(a, b)`, of length `k`, the bases of the final identity are the inputs:
`(b, d) = (a, b)` of the inputs when `k` is odd, and `(b, d) = (b, a)` when `k` is even. -/
theorem final_bases (a b n : Int) (hb : 0 < b) (hab : b < a) :
    ∃ (t : List GCDLog) (st : Coeffs), createLog [] a b = some t ∧
      solveDiophantine t n = some (st, printAnswer st n) ∧
      (t.length % 2 = 1 → st.b = a ∧ st.d = b) ∧
      (t.length % 2 = 0 → st.b = b ∧ st.d = a) := by
  obtain ⟨t, ht, st, last, hst, _, _, hbase⟩ := solve_invariant a b hb hab
  refine ⟨t, st, ht, solveDiophantine_eq t n st hst, ?_, ?_⟩
  · intro hodd
    rcases hbase with ⟨_, h1, h2⟩ | ⟨hpar, _, _⟩
    · exact ⟨h1, h2⟩
    · omega
  · intro heven
    rcases hbase with ⟨hpar, _, _⟩ | ⟨_, h1, h2⟩
    · omega
    · exact ⟨h1, h2⟩

/-- Witness for C15: `a = 35, b = 15, n = 10`, a trace of length `2` ending in the bases
`(15, 35)`. -/
theorem final_bases_witness :
    ((0 : Int) < 15 ∧ (15 : Int) < 35) ∧
    ∃ (t : List GCDLog) (st : Coeffs), createLog [] 35 15 = some t ∧
      solveDiophantine t 10 = some (st, printAnswer st 10) ∧
      (t.length % 2 = 1 → st.b = 35 ∧ st.d = 15) ∧
      (t.length % 2 = 0 → st.b = 15 ∧ st.d = 35) :=
  ⟨by decide, final_bases 35 15 10 (by decide) (by decide)⟩

/-- Claim C16: for `0 < b < a < 1000` and `0 < n < 1000`, every state `solveDiophantine`
passes through on the trace of `createLog(a, b)` satisfies `1 <= a <= d <= a0` and
`1 <= c <= b <= a0`, `a0` being the input `a`; hence `a`, `c` and the products with a
quotient or with `n` are below `10^6`, and the run over 32-bit `int` returns what the run
over the integers returns: no overflow. -/
theorem no_overflow (a b n : Int) (hb : 0 < b) (hab : b < a) (ha : a < 1000) (hn0 : 0 < n)
    (hn : n < 1000) :
    ∃ (t : List GCDLog) (S : List Coeffs), createLog [] a b = some t ∧
      solveStates t = some S ∧
      (∀ s ∈ S, 1 ≤ s.a ∧ s.a ≤ s.d ∧ s.d ≤ a ∧ 1 ≤ s.c ∧ s.c ≤ s.b ∧ s.b ≤ a) ∧
      (∀ s ∈ S, ∀ prev ∈ t, s.a < 1000000 ∧ s.c < 1000000 ∧
        s.a * prev.b < 1000000 ∧ s.c * prev.b < 1000000 ∧
        s.a * n < 1000000 ∧ s.c * n < 1000000) ∧
      solveDiophantine32 t n = solveDiophantine t n ∧
      ∃ r, solveDiophantine t n = some r := by
  obtain ⟨t, S, last, ht, hS, hlen, hfin, hlast, hstates, hquot, _⟩ := run_steps a b hb hab
  have hq : ∀ prev ∈ t, 0 ≤ prev.b ∧ prev.b < 1000 := by
    intro prev hp
    have := hquot prev hp
    exact ⟨by omega, by omega⟩
  have hbd : ∀ x ∈ S, (0 ≤ x.a ∧ x.a < 1000) ∧ (0 ≤ x.c ∧ x.c < 1000) := by
    intro x hx
    obtain ⟨_, h1, h2, h3, h4, h5, h6⟩ := hstates x hx
    exact ⟨⟨by omega, by omega⟩, by omega, by omega⟩
  have hne : t ≠ [] := by
    intro h; rw [h] at hlast; simp at hlast
  obtain ⟨st, hst⟩ := solveState_isSome t hne
  have hmem : st ∈ S := by
    rw [hst] at hfin
    exact List.mem_of_getLast?_eq_some hfin.symm
  refine ⟨t, S, ht, hS, fun s hs => (hstates s hs).2, ?_, ?_,
    ⟨_, solveDiophantine_eq t n st hst⟩⟩
  · intro s hs prev hp
    obtain ⟨⟨ha0, ha1⟩, hc0, hc1⟩ := hbd s hs
    obtain ⟨hq0, hq1⟩ := hq prev hp
    refine ⟨by omega, by omega, ?_, ?_, ?_, ?_⟩ <;> nlinarith
  · unfold solveDiophantine32 solveDiophantine
    rw [solveState32_eq t S hS hq hbd, hst]
    simp only
    rw [printAnswer32_eq st n (hbd st hmem).1 (hbd st hmem).2 ⟨by omega, hn⟩]

/-- Witness for C16: `a = 35, b = 15, n = 10`. -/
theorem no_overflow_witness :
    ((0 : Int) < 15 ∧ (15 : Int) < 35 ∧ (35 : Int) < 1000 ∧ (0 : Int) < 10 ∧
      (10 : Int) < 1000) ∧
    solveDiophantine32 [⟨35, 2, 15, 5⟩, ⟨15, 3, 5, 0⟩] 10
      = some (⟨7, 15, 3, 35⟩, ⟨15, 70, 35, 30, 10⟩) ∧
    ∃ (t : List GCDLog) (S : List Coeffs), createLog [] 35 15 = some t ∧
      solveStates t = some S ∧
      (∀ s ∈ S, 1 ≤ s.a ∧ s.a ≤ s.d ∧ s.d ≤ 35 ∧ 1 ≤ s.c ∧ s.c ≤ s.b ∧ s.b ≤ 35) ∧
      (∀ s ∈ S, ∀ prev ∈ t, s.a < 1000000 ∧ s.c < 1000000 ∧
        s.a * prev.b < 1000000 ∧ s.c * prev.b < 1000000 ∧
        s.a * 10 < 1000000 ∧ s.c * 10 < 1000000) ∧
      solveDiophantine32 t 10 = solveDiophantine t 10 ∧
      ∃ r, solveDiophantine t 10 = some r :=
  ⟨by decide, by decide,
    no_overflow 35 15 10 (by decide) (by decide) (by decide) (by decide) (by decide)⟩

/-- Claim C17: for `a > b > 0`, on the trace of `createLog(a, b)`, of length `k`, the
iteration of `solveDiophantine` on `gcdLog[i]`, for each `i` from `k - 2` down to `0`,
takes the right (else) branch if and only if `k - 2 - i` is even, so the branches
alternate starting with the right one; on the right branch `prev.d == d` and
`prev.c == b`, and on the left branch `prev.d == b` and `prev.c == d`. -/
theorem branches_alternate (a b : Int) (hb : 0 < b) (hab : b < a) :
    ∃ (t : List GCDLog) (S : List Coeffs), createLog [] a b = some t ∧
      solveStates t = some S ∧
      ∀ i : Nat, i + 2 ≤ t.length → ∃ (s : Coeffs) (prev : GCDLog),
        S[t.length - 2 - i]? = some s ∧ t[i]? = some prev ∧
        (prev.d ≠ s.b ↔ (t.length - 2 - i) % 2 = 0) ∧
        (prev.d ≠ s.b →
          substitute s prev = { a := s.a + s.c * prev.b, b := s.b, c := s.c, d := prev.a } ∧
          prev.d = s.d ∧ prev.c = s.b) ∧
        (prev.d = s.b →
          substitute s prev = { a := s.a, b := prev.a, c := s.c + s.a * prev.b, d := s.d } ∧
          prev.c = s.d) := by
  obtain ⟨t, S, last, ht, hS, hlen, _, _, _, _, hiter⟩ := run_steps a b hb hab
  refine ⟨t, S, ht, hS, ?_⟩
  intro i hi
  have hs : S[t.length - 2 - i]? = some (S[t.length - 2 - i]) :=
    List.getElem?_eq_getElem (by omega)
  have hp : t[i]? = some (t[i]) := List.getElem?_eq_getElem (by omega)
  obtain ⟨_, hbr⟩ := hiter i _ _ hi hs hp
  refine ⟨_, _, hs, hp, ?_, ?_, ?_⟩
  · rcases hbr with ⟨hpar, hne, _, _⟩ | ⟨hpar, heq, _⟩
    · exact ⟨fun _ => hpar, fun _ => hne⟩
    · exact ⟨fun hne => absurd heq hne, fun h0 => by omega⟩
  · intro hne
    rcases hbr with ⟨_, _, hd, hc⟩ | ⟨_, heq, _⟩
    · exact ⟨by unfold substitute; rw [if_neg hne], hd, hc⟩
    · exact absurd heq hne
  · intro heq
    rcases hbr with ⟨_, hne, _, _⟩ | ⟨_, _, hc⟩
    · exact absurd heq hne
    · exact ⟨by unfold substitute; rw [if_pos heq], hc⟩

/-- Witness for C17: `a = 7, b = 5`, a trace of length `2` whose one iteration takes the
right branch. -/
theorem branches_alternate_witness :
    ((0 : Int) < 5 ∧ (5 : Int) < 7) ∧
    createLog [] 7 5 = some [⟨7, 1, 5, 2⟩, ⟨5, 2, 2, 1⟩] ∧
    ∃ (t : List GCDLog) (S : List Coeffs), createLog [] 7 5 = some t ∧
      solveStates t = some S ∧
      ∀ i : Nat, i + 2 ≤ t.length → ∃ (s : Coeffs) (prev : GCDLog),
        S[t.length - 2 - i]? = some s ∧ t[i]? = some prev ∧
        (prev.d ≠ s.b ↔ (t.length - 2 - i) % 2 = 0) ∧
        (prev.d ≠ s.b →
          substitute s prev = { a := s.a + s.c * prev.b, b := s.b, c := s.c, d := prev.a } ∧
          prev.d = s.d ∧ prev.c = s.b) ∧
        (prev.d = s.b →
          substitute s prev = { a := s.a, b := prev.a, c := s.c + s.a * prev.b, d := s.d } ∧
          prev.c = s.d) :=
  ⟨by decide, trace_7_5, branches_alternate 7 5 (by decide) (by decide)⟩

/-- Claim C18: for all `a >= 1` and `b >= 1`, in either order, the recursive `gcd(a, b)`
returns, evaluating no modulo by zero, and the value it returns is the greatest common
divisor of `a` and `b`. -/
theorem gcd_correct (a b : Int) (ha : 1 ≤ a) (hb : 1 ≤ b) :
    gcd a b = some (Int.gcd a b : Int) :=
  gcd_pos_eq a b (by omega) (by omega)

/-- Witness for C18: `gcd(5, 10)`, with `a < b` as in the call `gcd(gcd(a, b), n)`, is
`5`. -/
theorem gcd_correct_witness :
    ((1 : Int) ≤ 5 ∧ (1 : Int) ≤ 10) ∧ ((Int.gcd 5 10 : Nat) : Int) = 5 ∧
    gcd 5 10 = some (Int.gcd 5 10 : Int) :=
  ⟨by decide, by decide, gcd_correct 5 10 (by decide) (by decide)⟩

/-- Claim C2 as stated fails at `a = 7, b = 5, n = 2147483647`: the inputs are coprime
with `b >= 2` and `n >= 1`, the run ends in `(3, 5, 2, 7)`, and the product `a * n` of
the answer line, `3 * 2147483647`, does not fit in `int`, so no true answer line is
printed. -/
theorem coprime_answer_overflow :
    ((2 : Int) ≤ 5 ∧ (5 : Int) < 7 ∧ Int.gcd 7 5 = 1 ∧ (1 : Int) ≤ 2147483647) ∧
    createLog [] 7 5 = some [⟨7, 1, 5, 2⟩, ⟨5, 2, 2, 1⟩] ∧
    solveState32 [⟨7, 1, 5, 2⟩, ⟨5, 2, 2, 1⟩] = some ⟨3, 5, 2, 7⟩ ∧
    int32 (3 * 2147483647) = none ∧
    solveDiophantine32 [⟨7, 1, 5, 2⟩, ⟨5, 2, 2, 1⟩] 2147483647 = none ∧
    ¬ (∀ a b n : Int, 2 ≤ b → b < a → Int.gcd a b = 1 → 1 ≤ n →
        ∃ (t : List GCDLog) (r : Coeffs × Equation), createLog [] a b = some t ∧
          solveDiophantine32 t n = some r ∧ r.2.holds) := by
  refine ⟨by decide, trace_7_5, by decide, by decide, by decide, ?_⟩
  intro h
  obtain ⟨t, r, ht, hr, _⟩ := h 7 5 2147483647 (by decide) (by decide) (by decide) (by decide)
  have htt : t = [⟨7, 1, 5, 2⟩, ⟨5, 2, 2, 1⟩] := Option.some.inj (ht.symm.trans trace_7_5)
  subst htt
  have hnone : solveDiophantine32 [⟨7, 1, 5, 2⟩, ⟨5, 2, 2, 1⟩] 2147483647 = none := by decide
  rw [hnone] at hr
  exact absurd hr (by simp)

/-- Claim C2, amended: for `a > b >= 2` with `gcd(a, b) = 1` and every `n >= 1` such that
`a * n` fits in `int` (`a * n <= 2147483647`, as for every input `main` admits),
`createLog(a, b)` returns a trace on which `solveDiophantine`, computing in 32-bit `int`,
ends without overflow in a state with `a(b) - c(d) = 1` and `b(a * n) - d(c * n) = n`;
the printed answer line is a true equation; and the two bases `b, d` are the two inputs,
so the answer is a solution `x, y` of `a x + b y = n`. -/
theorem coprime_answer (a b n : Int) (hb : 2 ≤ b) (hab : b < a) (hg : Int.gcd a b = 1)
    (hn : 1 ≤ n) (hfit : a * n ≤ 2147483647) :
    ∃ (t : List GCDLog) (st : Coeffs), createLog [] a b = some t ∧
      solveDiophantine32 t n = some (st, printAnswer st n) ∧
      solveDiophantine t n = some (st, printAnswer st n) ∧
      st.a * st.b - st.c * st.d = 1 ∧
      st.b * (st.a * n) - st.d * (st.c * n) = n ∧
      (printAnswer st n).holds ∧
      ((st.b = a ∧ st.d = b ∧ a * (st.a * n) + b * (-(st.c * n)) = n) ∨
        (st.b = b ∧ st.d = a ∧ a * (-(st.c * n)) + b * (st.a * n) = n)) := by
  have ha : a ≤ 2147483647 := by nlinarith
  obtain ⟨t, st, ht, hst, hst32, hA1, hAa, hC1, hCa⟩ := run32_state a b (by omega) hab ha
  obtain ⟨t1, ht1, st1, last, hst1, hlast, hinv, hbase⟩ := solve_invariant a b (by omega) hab
  obtain ⟨t2, ht2, last2, hlast2, _, hiff⟩ := trace_last_remainder a b (by omega) hab
  have htt1 : t1 = t := Option.some.inj (ht1.symm.trans ht)
  subst htt1
  have htt2 : t2 = t1 := Option.some.inj (ht2.symm.trans ht)
  subst htt2
  have hss : st1 = st := Option.some.inj (hst1.symm.trans hst)
  subst hss
  have hll : last2 = last := Option.some.inj (hlast2.symm.trans hlast)
  subst hll
  have h1 : st1.a * st1.b - st1.c * st1.d = 1 := by rw [hinv]; exact hiff.mpr ⟨hg, hb⟩
  have hscaled : st1.b * (st1.a * n) - st1.d * (st1.c * n) = n := by
    linear_combination n * h1
  have han : st1.a * n ≤ 2147483647 := by nlinarith
  have hcn : st1.c * n ≤ 2147483647 := by nlinarith
  have h32 : solveDiophantine32 t2 n = some (st1, printAnswer st1 n) := by
    unfold solveDiophantine32
    rw [hst32]
    simp only
    rw [printAnswer32_eq_of_bounds st1 n (by omega) (by omega) (by omega) han hcn]
  refine ⟨t2, st1, ht, h32, solveDiophantine_eq t2 n st1 hst, h1, hscaled, ?_, ?_⟩
  · unfold printAnswer Equation.holds
    by_cases hn1 : n = 1
    · simp [hn1, h1]
    · simp [hn1, hscaled]
  · rcases hbase with ⟨_, hsb, hsd⟩ | ⟨_, hsb, hsd⟩
    · refine Or.inl ⟨hsb, hsd, ?_⟩
      rw [hsb, hsd] at hscaled
      linear_combination hscaled
    · refine Or.inr ⟨hsb, hsd, ?_⟩
      rw [hsb, hsd] at hscaled
      linear_combination hscaled

/-- Witness for C2 as amended: `a = 7, b = 5, n = 3`, where the run ends in `(3, 5, 2, 7)`
and prints `5(9) - 7(6) = 3`. -/
theorem coprime_answer_witness :
    ((2 : Int) ≤ 5 ∧ (5 : Int) < 7 ∧ Int.gcd 7 5 = 1 ∧ (1 : Int) ≤ 3 ∧
      (7 : Int) * 3 ≤ 2147483647) ∧
    solveDiophantine32 [⟨7, 1, 5, 2⟩, ⟨5, 2, 2, 1⟩] 3
      = some (⟨3, 5, 2, 7⟩, ⟨5, 9, 7, 6, 3⟩) ∧
    ∃ (t : List GCDLog) (st : Coeffs), createLog [] 7 5 = some t ∧
      solveDiophantine32 t 3 = some (st, printAnswer st 3) ∧
      solveDiophantine t 3 = some (st, printAnswer st 3) ∧
      st.a * st.b - st.c * st.d = 1 ∧
      st.b * (st.a * 3) - st.d * (st.c * 3) = 3 ∧
      (printAnswer st 3).holds ∧
      ((st.b = 7 ∧ st.d = 5 ∧ 7 * (st.a * 3) + 5 * (-(st.c * 3)) = 3) ∨
        (st.b = 5 ∧ st.d = 7 ∧ 7 * (-(st.c * 3)) + 5 * (st.a * 3) = 3)) :=
  ⟨by decide, by decide,
    coprime_answer 7 5 3 (by decide) (by decide) (by decide) (by decide) (by decide)⟩

end Diophantine
